import Mathlib

set_option linter.unusedVariables false

/-!
Verification of the go-tezos transport and decoding engine: the
discriminator-based variant decoders (`operations.go`, `block.go`), the
heterogeneous-tuple decoder (`utils.go`), the response dispatcher and the
error classifier (`client.go`).  Go's `encoding/json` is embedded shallowly:
a JSON document is a `Json` value, a response body is a finite sequence of
well-formed JSON values optionally followed by unparseable garbage, and each
Go struct's unmarshalling is a Lean function `Json → Except String _`
following `encoding/json`'s semantics (absent or null fields keep the zero
value, type mismatches fail, unknown object fields are ignored, for a
duplicated object key the last occurrence wins).
-/

namespace Tezos

/-- Whether an `Except` computation succeeded. -/
def isOkE : Except ε α → Bool
  | .ok a => true
  | .error e => false

/-- The successful result of an `Except` computation, if any. -/
def okValue : Except ε α → Option α
  | .ok a => some a
  | .error e => none

/-- A well-formed JSON value.  Numbers are modelled as integers (the decoded
    fields in scope are all integral). -/
inductive Json where
  | null
  | bool (b : Bool)
  | num (n : Int)
  | str (s : String)
  | arr (elems : List Json)
  | obj (fields : List (String × Json))
deriving Repr, Inhabited

/-- Last binding of key `k` in an object's field list: `encoding/json`
    processes keys in order, so a later duplicate overwrites an earlier one. -/
def lookupField (fields : List (String × Json)) (k : String) : Option Json :=
  fields.foldl (fun acc p => if p.1 = k then some p.2 else acc) none

/-- Value of a struct field: a field bound to JSON `null` is a no-op for
    `encoding/json`, hence indistinguishable from an absent field when
    decoding into a freshly allocated (zero) destination. -/
def fieldVal (fields : List (String × Json)) (k : String) : Option Json :=
  match lookupField fields k with
  | some .null => none
  | o => o

/-- Go `string` destination. -/
def decodeString : Json → Except String String
  | .str s => .ok s
  | j => .error "json: cannot unmarshal value into Go value of type string"

/-- Go signed-integer destination with an overflow range check
    (`lo ≤ n < hi`). -/
def decodeIntRange (lo hi : Int) : Json → Except String Int
  | .num n =>
      if lo ≤ n ∧ n < hi then .ok n
      else .error "json: cannot unmarshal number: integer overflow"
  | j => .error "json: cannot unmarshal value into Go integer value"

/-- Go `int`/`int64` destination (64-bit). -/
def decodeInt : Json → Except String Int :=
  decodeIntRange (-(2 ^ 63)) (2 ^ 63)

/-- Go `int32` destination. -/
def decodeInt32 : Json → Except String Int :=
  decodeIntRange (-(2 ^ 31)) (2 ^ 31)

/-- Go `int16` destination. -/
def decodeInt16 : Json → Except String Int :=
  decodeIntRange (-(2 ^ 15)) (2 ^ 15)

/-- Go `byte` (`uint8`) destination. -/
def decodeByte : Json → Except String Int :=
  decodeIntRange 0 (2 ^ 8)

/-- Go `uint16` destination. -/
def decodeUint16 : Json → Except String Int :=
  decodeIntRange 0 (2 ^ 16)

/-- Go `bool` destination. -/
def decodeBool : Json → Except String Bool
  | .bool b => .ok b
  | j => .error "json: cannot unmarshal value into Go value of type bool"

/-- Go `map[string]interface{}` destination: any JSON object. -/
def decodeMap : Json → Except String (List (String × Json))
  | .obj fields => .ok fields
  | j => .error "json: cannot unmarshal value into Go value of type map"

/-- Go `[]string` destination. -/
def decodeStringList : Json → Except String (List String)
  | .arr elems => elems.mapM decodeString
  | j => .error "json: cannot unmarshal value into Go value of type []string"

/-- Go `[]int` destination. -/
def decodeIntList : Json → Except String (List Int)
  | .arr elems => elems.mapM decodeInt
  | j => .error "json: cannot unmarshal value into Go value of type []int"

/-- Go `int64` field with the `,string` tag (`GenericBalanceUpdate.Change`):
    the value must be a JSON string containing a decimal integer. -/
def decodeIntString : Json → Except String Int
  | .str s =>
      match s.toInt? with
      | some n => .ok n
      | none => .error "json: invalid number literal in string-tagged field"
  | j => .error "json: invalid use of ,string struct tag"

/-- A struct field that is absent (or null) keeps the zero value `z`,
    otherwise it is decoded by `dec`. -/
def fieldDec (fields : List (String × Json)) (k : String)
    (dec : Json → Except String α) (z : α) : Except String α :=
  match fieldVal fields k with
  | none => .ok z
  | some v => dec v

/-- A pointer-typed struct field: absent or null leaves a nil pointer. -/
def fieldOpt (fields : List (String × Json)) (k : String)
    (dec : Json → Except String α) : Except String (Option α) :=
  match fieldVal fields k with
  | none => .ok none
  | some v => (dec v).map some

/-- A struct destination accepts a JSON object (or null, which leaves the
    freshly allocated zero struct untouched — represented by the empty field
    list). -/
def asObjFields : Json → Except String (List (String × Json))
  | .obj fields => .ok fields
  | .null => .ok []
  | j => .error "json: cannot unmarshal value into Go struct"

/-- `json.Unmarshal(data, &raw)` with `raw []json.RawMessage`: the document
    must be a JSON array (or null, yielding a nil slice); each element is
    kept as a raw fragment. -/
def asRawArray : Json → Except String (List Json)
  | .arr elems => .ok elems
  | .null => .ok []
  | j => .error "json: cannot unmarshal value into Go value of type []json.RawMessage"

/-- `time.Time` destination: an RFC3339 timestamp string.  The model keeps
    the string itself; calendar validation of its contents is not modelled. -/
def decodeTime : Json → Except String String
  | .str s => .ok s
  | j => .error "json: cannot unmarshal value into Go value of type time.Time"

/-- `HexBytes.UnmarshalJSON`: the quoted fragment must have even length
    (hence an even-length string content) and decode as hexadecimal digits. -/
def decodeHexBytes : Json → Except String String
  | .str s =>
      if s.length % 2 ≠ 0 then .error "Length of hex string not even"
      else if s.toList.all (fun c => c.isDigit ∨ ('a' ≤ c ∧ c ≤ 'f') ∨ ('A' ≤ c ∧ c ≤ 'F')) then .ok s
      else .error "encoding/hex: invalid byte"
  | j => .error "Length of hex string not even"

/-- Modelled from the spec: the `BigInt` type referenced by `operations.go`
    is defined outside the provided sources; per the wire-format assumptions
    ("bodies are UTF-8 JSON" with big integers carried as strings) it decodes
    from a JSON string holding a decimal integer. -/
def decodeBigInt : Json → Except String Int
  | .str s =>
      match s.toInt? with
      | some n => .ok n
      | none => .error "tezos: invalid big integer literal"
  | j => .error "tezos: cannot unmarshal value into BigInt"

/-- Modelled from the spec: the `Errors` type referenced by `client.go` and
    `operations.go` is defined outside the provided sources.  Per the spec,
    a protocol-error body is a JSON array of records "each with at least a
    `kind` (one of a small closed set of strings, with an explicit `unknown`
    fallback for unrecognized values) and an `id` (string)"; the record keeps
    the discriminator string itself, so unrecognized kinds are retained, not
    rejected. -/
structure GenericError where
  kind : String
  id : String
deriving Repr

/-- Modelled from the spec: list of structured protocol-error records. -/
abbrev Errors := List GenericError

/-- Modelled from the spec: decode one protocol-error record, requiring at
    least the `kind` and `id` string fields. -/
def decodeGenericError : Json → Except String GenericError
  | .obj fields =>
      match lookupField fields "kind", lookupField fields "id" with
      | some (.str k), some (.str i) => .ok ⟨k, i⟩
      | _, _ => .error "tezos: malformed error record"
  | j => .error "tezos: error record is not an object"

/-- Modelled from the spec: decode a protocol-error body (a JSON array of
    error records). -/
def unmarshalErrors : Json → Except String Errors
  | .arr elems => elems.mapM decodeGenericError
  | j => .error "tezos: error body is not an array"

/-! ### The variant-decoder loops

Both `OperationElements.UnmarshalJSON` and `BalanceUpdates.UnmarshalJSON`
(`operations.go`) run the same loop: the destination slice is replaced by a
freshly made slice of the input's length (all positions nil), then position
`i` is filled with the decoded element `i`; the first element error aborts
the loop.  On abort, the positions strictly after the failing index are
still nil, and the failing position itself is nil only when the
discriminator pre-decode failed: for a registered discriminator the switch
assigns the fresh allocation `(*e)[i] = &T{}` before the second
`json.Unmarshal`, so a full-decode failure leaves a non-nil value of the
registered concrete type in the slot. -/

namespace Ops

/-- `GenericBalanceUpdate` (`operations.go`): `Kind` plus the string-tagged
    `Change int64`. -/
structure GenericBalanceUpdate where
  kind : String
  change : Int
deriving Repr

/-- `ContractBalanceUpdate` (`operations.go`). -/
structure ContractBalanceUpdate where
  gen : GenericBalanceUpdate
  contract : String
deriving Repr

/-- `FreezerBalanceUpdate` (`operations.go`). -/
structure FreezerBalanceUpdate where
  gen : GenericBalanceUpdate
  category : String
  delegate : String
  level : Int
deriving Repr

/-- The `BalanceUpdate` interface: one of the registered variants or the
    generic fallback. -/
inductive BalanceUpdate where
  | generic (e : GenericBalanceUpdate)
  | contract (e : ContractBalanceUpdate)
  | freezer (e : FreezerBalanceUpdate)
deriving Repr

/-- `BalanceUpdateKind()`: every variant reports its discriminator. -/
def BalanceUpdate.kind : BalanceUpdate → String
  | .generic e => e.kind
  | .contract e => e.gen.kind
  | .freezer e => e.gen.kind

/-- The concrete Go type of a decoded balance update. -/
inductive BuTag where
  | generic | contract | freezer
deriving Repr, DecidableEq

/-- Concrete type of a `BalanceUpdate` value. -/
def BalanceUpdate.tag : BalanceUpdate → BuTag
  | .generic e => .generic
  | .contract e => .contract
  | .freezer e => .freezer

/-- The registry view of `BalanceUpdates.UnmarshalJSON`'s switch: the
    concrete type registered for each discriminator. -/
def buRegistryTag : String → Option BuTag
  | "contract" => some .contract
  | "freezer" => some .freezer
  | k => none

/-- `BalanceUpdates` (`operations.go`): the decoded sequence. -/
abbrev BalanceUpdates := List BalanceUpdate

/-- Unmarshal a `GenericBalanceUpdate` (also the embedded part of the
    concrete variants). -/
def decodeGenericBalanceUpdate (j : Json) : Except String GenericBalanceUpdate := do
  let fields ← asObjFields j
  let kind ← fieldDec fields "kind" decodeString ""
  let change ← fieldDec fields "change" decodeIntString 0
  .ok ⟨kind, change⟩

/-- Unmarshal a `ContractBalanceUpdate` (embedded generic fields are
    promoted, so they are read from the same object). -/
def decodeContractBalanceUpdate (j : Json) : Except String ContractBalanceUpdate := do
  let fields ← asObjFields j
  let gen ← decodeGenericBalanceUpdate j
  let contract ← fieldDec fields "contract" decodeString ""
  .ok ⟨gen, contract⟩

/-- Unmarshal a `FreezerBalanceUpdate`. -/
def decodeFreezerBalanceUpdate (j : Json) : Except String FreezerBalanceUpdate := do
  let fields ← asObjFields j
  let gen ← decodeGenericBalanceUpdate j
  let category ← fieldDec fields "category" decodeString ""
  let delegate ← fieldDec fields "delegate" decodeString ""
  let level ← fieldDec fields "level" decodeInt 0
  .ok ⟨gen, category, delegate, level⟩

/-- One element of `BalanceUpdates.UnmarshalJSON`'s loop: pre-decode the
    discriminator, then switch on it; an unknown kind keeps the pre-decoded
    generic value (`continue opLoop`). -/
def buSwitch (tmp : GenericBalanceUpdate) (r : Json) : Except String BalanceUpdate :=
  match tmp.kind with
  | "contract" => (decodeContractBalanceUpdate r).map .contract
  | "freezer" => (decodeFreezerBalanceUpdate r).map .freezer
  | k => .ok (.generic tmp)

/-- The element decode including the discriminator pre-decode. -/
def decodeBalanceUpdateElem (r : Json) : Except String BalanceUpdate :=
  match decodeGenericBalanceUpdate r with
  | .error e => .error e
  | .ok tmp => buSwitch tmp r

/-- The fresh allocation `(*b)[i] = &T{}` the switch stores for a registered
    balance-update discriminator before the full unmarshal.  The embedded
    generic part holds the pre-decoded discriminator record: the failing
    unmarshal re-reads `kind` and `change` from the same object, so they are
    populated exactly as in the pre-decode; partial writes to the remaining
    fields by the failing unmarshal are not modelled (they stay zero). -/
def buAllocForTag (t : BuTag) (tmp : GenericBalanceUpdate) : BalanceUpdate :=
  match t with
  | .generic => .generic tmp
  | .contract => .contract ⟨tmp, ""⟩
  | .freezer => .freezer ⟨tmp, "", "", 0⟩

/-- The fill loop of `BalanceUpdates.UnmarshalJSON`: pre-decode the
    discriminator (failure returns with the slot still nil), keep the
    pre-decoded generic value for an unregistered discriminator
    (`continue opLoop`), and for a registered one store the fresh allocation
    and fully decode over it — a full-decode failure returns with the
    allocation (not nil) in the slot. -/
def buElemsLoop : List Json → Except String Unit × List (Option BalanceUpdate)
  | [] => (.ok (), [])
  | r :: rest =>
      match decodeGenericBalanceUpdate r with
      | .error e => (.error e, none :: List.replicate rest.length none)
      | .ok tmp =>
          match buRegistryTag tmp.kind with
          | none =>
              let p := buElemsLoop rest
              (p.1, some (.generic tmp) :: p.2)
          | some t =>
              match buSwitch tmp r with
              | .error e =>
                  (.error e, some (buAllocForTag t tmp) :: List.replicate rest.length none)
              | .ok elem =>
                  let p := buElemsLoop rest
                  (p.1, some elem :: p.2)

/-- `BalanceUpdates.UnmarshalJSON` (`operations.go`): parse the document as
    an array of raw fragments (failure leaves the destination untouched),
    replace the destination by a fresh nil-filled slice of that length and
    run the loop. -/
def BalanceUpdates.unmarshalJSON (data : Json) (prev : List (Option BalanceUpdate)) :
    Except String Unit × List (Option BalanceUpdate) :=
  match asRawArray data with
  | .error e => (.error e, prev)
  | .ok raw => buElemsLoop raw

/-- A `BalanceUpdates`-typed struct field invokes the custom unmarshaller on
    the field's fragment; on success the slice holds no nils. -/
def decodeBalanceUpdates (j : Json) : Except String BalanceUpdates :=
  match BalanceUpdates.unmarshalJSON j [] with
  | (.ok _, s) => .ok (s.filterMap id)
  | (.error e, s) => .error e

/-- `GenericOperationElem` (`operations.go`): the discriminator-only record,
    also serving as the generic fallback. -/
structure GenericOperationElem where
  kind : String
deriving Repr

/-- Unmarshal a `GenericOperationElem` (the cheap discriminator pre-decode;
    an object without a `kind` field yields the zero value `""`). -/
def decodeGenericOperationElem (j : Json) : Except String GenericOperationElem := do
  let fields ← asObjFields j
  let kind ← fieldDec fields "kind" decodeString ""
  .ok ⟨kind⟩

/-- Go `[]HexBytes` destination (`RawBlockHeader.Fitness`). -/
def decodeHexList : Json → Except String (List String)
  | .arr elems => elems.mapM decodeHexBytes
  | j => .error "json: cannot unmarshal value into Go value of type []HexBytes"

/-- `EndorsementOperationMetadata` (`operations.go`). -/
structure EndorsementOperationMetadata where
  balanceUpdates : BalanceUpdates
  delegate : String
  slots : List Int
deriving Repr

/-- Unmarshal an `EndorsementOperationMetadata`. -/
def decodeEndorsementOperationMetadata (j : Json) : Except String EndorsementOperationMetadata := do
  let fields ← asObjFields j
  let bu ← fieldDec fields "balance_updates" decodeBalanceUpdates []
  let delegate ← fieldDec fields "delegate" decodeString ""
  let slots ← fieldDec fields "slots" decodeIntList []
  .ok ⟨bu, delegate, slots⟩

/-- `EndorsementOperationElem` (`operations.go`). -/
structure EndorsementOperationElem where
  gen : GenericOperationElem
  level : Int
  metadata : EndorsementOperationMetadata
deriving Repr

/-- Unmarshal an `EndorsementOperationElem`. -/
def decodeEndorsementOperationElem (j : Json) : Except String EndorsementOperationElem := do
  let fields ← asObjFields j
  let gen ← decodeGenericOperationElem j
  let level ← fieldDec fields "level" decodeInt 0
  let metadata ← fieldDec fields "metadata" decodeEndorsementOperationMetadata ⟨[], "", []⟩
  .ok ⟨gen, level, metadata⟩

/-- `TransactionOperationResult` (`operations.go`). -/
structure TransactionOperationResult where
  status : String
  storage : List (String × Json)
  balanceUpdates : BalanceUpdates
  originatedContracts : List String
  consumedGas : Option Int
  storageSize : Option Int
  paidStorageSizeDiff : Option Int
  errors : Errors
deriving Repr

/-- Unmarshal a `TransactionOperationResult`. -/
def decodeTransactionOperationResult (j : Json) : Except String TransactionOperationResult := do
  let fields ← asObjFields j
  let status ← fieldDec fields "status" decodeString ""
  let storage ← fieldDec fields "storage" decodeMap []
  let bu ← fieldDec fields "balance_updates" decodeBalanceUpdates []
  let oc ← fieldDec fields "originated_contracts" decodeStringList []
  let cg ← fieldOpt fields "consumed_gas" decodeBigInt
  let ss ← fieldOpt fields "storage_size" decodeBigInt
  let pd ← fieldOpt fields "paid_storage_size_diff" decodeBigInt
  let errs ← fieldDec fields "errors" unmarshalErrors []
  .ok ⟨status, storage, bu, oc, cg, ss, pd, errs⟩

/-- `TransactionOperationMetadata` (`operations.go`). -/
structure TransactionOperationMetadata where
  balanceUpdates : BalanceUpdates
  operationResult : TransactionOperationResult
deriving Repr

/-- Unmarshal a `TransactionOperationMetadata`. -/
def decodeTransactionOperationMetadata (j : Json) : Except String TransactionOperationMetadata := do
  let fields ← asObjFields j
  let bu ← fieldDec fields "balance_updates" decodeBalanceUpdates []
  let res ← fieldDec fields "operation_result" decodeTransactionOperationResult
    ⟨"", [], [], [], none, none, none, []⟩
  .ok ⟨bu, res⟩

/-- `TransactionOperationElem` (`operations.go`). -/
structure TransactionOperationElem where
  gen : GenericOperationElem
  source : String
  fee : Int
  counter : Int
  gasLimit : Int
  storageLimit : Int
  amount : Int
  destination : String
  parameters : List (String × Json)
  metadata : TransactionOperationMetadata
deriving Repr

/-- Unmarshal a `TransactionOperationElem`. -/
def decodeTransactionOperationElem (j : Json) : Except String TransactionOperationElem := do
  let fields ← asObjFields j
  let gen ← decodeGenericOperationElem j
  let source ← fieldDec fields "source" decodeString ""
  let fee ← fieldDec fields "fee" decodeBigInt 0
  let counter ← fieldDec fields "counter" decodeBigInt 0
  let gasLimit ← fieldDec fields "gas_limit" decodeBigInt 0
  let storageLimit ← fieldDec fields "storage_limit" decodeBigInt 0
  let amount ← fieldDec fields "amount" decodeBigInt 0
  let destination ← fieldDec fields "destination" decodeString ""
  let parameters ← fieldDec fields "parameters" decodeMap []
  let metadata ← fieldDec fields "metadata" decodeTransactionOperationMetadata
    ⟨[], ⟨"", [], [], [], none, none, none, []⟩⟩
  .ok ⟨gen, source, fee, counter, gasLimit, storageLimit, amount, destination, parameters, metadata⟩

/-- `BallotOperationElem` (`operations.go`). -/
structure BallotOperationElem where
  gen : GenericOperationElem
  source : String
  period : Int
  proposal : String
  ballot : String
  metadata : List (String × Json)
deriving Repr

/-- Unmarshal a `BallotOperationElem`. -/
def decodeBallotOperationElem (j : Json) : Except String BallotOperationElem := do
  let fields ← asObjFields j
  let gen ← decodeGenericOperationElem j
  let source ← fieldDec fields "source" decodeString ""
  let period ← fieldDec fields "period" decodeInt 0
  let proposal ← fieldDec fields "proposal" decodeString ""
  let ballot ← fieldDec fields "ballot" decodeString ""
  let metadata ← fieldDec fields "metadata" decodeMap []
  .ok ⟨gen, source, period, proposal, ballot, metadata⟩

/-- `ProposalOperationElem` (`operations.go`). -/
structure ProposalOperationElem where
  gen : GenericOperationElem
  source : String
  period : Int
  proposals : List String
  metadata : List (String × Json)
deriving Repr

/-- Unmarshal a `ProposalOperationElem`. -/
def decodeProposalOperationElem (j : Json) : Except String ProposalOperationElem := do
  let fields ← asObjFields j
  let gen ← decodeGenericOperationElem j
  let source ← fieldDec fields "source" decodeString ""
  let period ← fieldDec fields "period" decodeInt 0
  let proposals ← fieldDec fields "proposals" decodeStringList []
  let metadata ← fieldDec fields "metadata" decodeMap []
  .ok ⟨gen, source, period, proposals, metadata⟩

/-- `BalanceUpdatesOperationMetadata` (`operations.go`). -/
structure BalanceUpdatesOperationMetadata where
  balanceUpdates : BalanceUpdates
deriving Repr

/-- Unmarshal a `BalanceUpdatesOperationMetadata`. -/
def decodeBalanceUpdatesOperationMetadata (j : Json) :
    Except String BalanceUpdatesOperationMetadata := do
  let fields ← asObjFields j
  let bu ← fieldDec fields "balance_updates" decodeBalanceUpdates []
  .ok ⟨bu⟩

/-- `SeedNonceRevelationOperationElem` (`operations.go`): `Level` is `int32`. -/
structure SeedNonceRevelationOperationElem where
  gen : GenericOperationElem
  level : Int
  nonce : String
  metadata : BalanceUpdatesOperationMetadata
deriving Repr

/-- Unmarshal a `SeedNonceRevelationOperationElem`. -/
def decodeSeedNonceRevelationOperationElem (j : Json) :
    Except String SeedNonceRevelationOperationElem := do
  let fields ← asObjFields j
  let gen ← decodeGenericOperationElem j
  let level ← fieldDec fields "level" decodeInt32 0
  let nonce ← fieldDec fields "nonce" decodeString ""
  let metadata ← fieldDec fields "metadata" decodeBalanceUpdatesOperationMetadata ⟨[]⟩
  .ok ⟨gen, level, nonce, metadata⟩

/-- `InlinedEndorsementContents` (`operations.go`): note the source reads the
    `Kind` field from the JSON key `"endorsement"`. -/
structure InlinedEndorsementContents where
  kind : String
  level : Int
deriving Repr

/-- Unmarshal an `InlinedEndorsementContents`. -/
def decodeInlinedEndorsementContents (j : Json) : Except String InlinedEndorsementContents := do
  let fields ← asObjFields j
  let kind ← fieldDec fields "endorsement" decodeString ""
  let level ← fieldDec fields "level" decodeInt 0
  .ok ⟨kind, level⟩

/-- `InlinedEndorsement` (`operations.go`). -/
structure InlinedEndorsement where
  branch : String
  operations : InlinedEndorsementContents
  signature : String
deriving Repr

/-- Unmarshal an `InlinedEndorsement`. -/
def decodeInlinedEndorsement (j : Json) : Except String InlinedEndorsement := do
  let fields ← asObjFields j
  let branch ← fieldDec fields "branch" decodeString ""
  let operations ← fieldDec fields "operations" decodeInlinedEndorsementContents ⟨"", 0⟩
  let signature ← fieldDec fields "signature" decodeString ""
  .ok ⟨branch, operations, signature⟩

/-- `DoubleEndorsementEvidenceOperationElem` (`operations.go`). -/
structure DoubleEndorsementEvidenceOperationElem where
  gen : GenericOperationElem
  op1 : InlinedEndorsement
  op2 : InlinedEndorsement
  metadata : BalanceUpdatesOperationMetadata
deriving Repr

/-- Unmarshal a `DoubleEndorsementEvidenceOperationElem`. -/
def decodeDoubleEndorsementEvidenceOperationElem (j : Json) :
    Except String DoubleEndorsementEvidenceOperationElem := do
  let fields ← asObjFields j
  let gen ← decodeGenericOperationElem j
  let op1 ← fieldDec fields "op1" decodeInlinedEndorsement ⟨"", ⟨"", 0⟩, ""⟩
  let op2 ← fieldDec fields "op2" decodeInlinedEndorsement ⟨"", ⟨"", 0⟩, ""⟩
  let metadata ← fieldDec fields "metadata" decodeBalanceUpdatesOperationMetadata ⟨[]⟩
  .ok ⟨gen, op1, op2, metadata⟩

/-- `RawBlockHeader` (hex-bytes iteration): the block-header record embedded
    in double-baking evidence. -/
structure RawBlockHeader where
  level : Int
  proto : Int
  predecessor : String
  timestamp : String
  validationPass : Int
  operationsHash : String
  fitness : List String
  context : String
  priority : Int
  proofOfWorkNonce : String
  seedNonceHash : String
  signature : String
deriving Repr

/-- Unmarshal a `RawBlockHeader`. -/
def decodeRawBlockHeader (j : Json) : Except String RawBlockHeader := do
  let fields ← asObjFields j
  let level ← fieldDec fields "level" decodeInt32 0
  let proto ← fieldDec fields "proto" decodeByte 0
  let predecessor ← fieldDec fields "predecessor" decodeString ""
  let timestamp ← fieldDec fields "timestamp" decodeTime ""
  let validationPass ← fieldDec fields "validation_pass" decodeByte 0
  let operationsHash ← fieldDec fields "operations_hash" decodeString ""
  let fitness ← fieldDec fields "fitness" decodeHexList []
  let context ← fieldDec fields "context" decodeString ""
  let priority ← fieldDec fields "priority" decodeInt16 0
  let pow ← fieldDec fields "proof_of_work_nonce" decodeHexBytes ""
  let snh ← fieldDec fields "seed_nonce_hash" decodeString ""
  let signature ← fieldDec fields "signature" decodeString ""
  .ok ⟨level, proto, predecessor, timestamp, validationPass, operationsHash,
        fitness, context, priority, pow, snh, signature⟩

/-- `DoubleBakingEvidenceOperationElem` (`operations.go`). -/
structure DoubleBakingEvidenceOperationElem where
  gen : GenericOperationElem
  bh1 : RawBlockHeader
  bh2 : RawBlockHeader
  metadata : BalanceUpdatesOperationMetadata
deriving Repr

/-- The zero `RawBlockHeader`. -/
def zeroRawBlockHeader : RawBlockHeader :=
  ⟨0, 0, "", "", 0, "", [], "", 0, "", "", ""⟩

/-- Unmarshal a `DoubleBakingEvidenceOperationElem`. -/
def decodeDoubleBakingEvidenceOperationElem (j : Json) :
    Except String DoubleBakingEvidenceOperationElem := do
  let fields ← asObjFields j
  let gen ← decodeGenericOperationElem j
  let bh1 ← fieldDec fields "bh1" decodeRawBlockHeader zeroRawBlockHeader
  let bh2 ← fieldDec fields "bh2" decodeRawBlockHeader zeroRawBlockHeader
  let metadata ← fieldDec fields "metadata" decodeBalanceUpdatesOperationMetadata ⟨[]⟩
  .ok ⟨gen, bh1, bh2, metadata⟩

/-- `ActivateAccountOperationElem` (`operations.go`). -/
structure ActivateAccountOperationElem where
  gen : GenericOperationElem
  pkh : String
  secret : String
  metadata : BalanceUpdatesOperationMetadata
deriving Repr

/-- Unmarshal an `ActivateAccountOperationElem`. -/
def decodeActivateAccountOperationElem (j : Json) :
    Except String ActivateAccountOperationElem := do
  let fields ← asObjFields j
  let gen ← decodeGenericOperationElem j
  let pkh ← fieldDec fields "pkh" decodeString ""
  let secret ← fieldDec fields "secret" decodeString ""
  let metadata ← fieldDec fields "metadata" decodeBalanceUpdatesOperationMetadata ⟨[]⟩
  .ok ⟨gen, pkh, secret, metadata⟩

/-- `DelegationOperationResult` (`operations.go`). -/
structure DelegationOperationResult where
  status : String
  errors : Errors
deriving Repr

/-- Unmarshal a `DelegationOperationResult`. -/
def decodeDelegationOperationResult (j : Json) : Except String DelegationOperationResult := do
  let fields ← asObjFields j
  let status ← fieldDec fields "status" decodeString ""
  let errs ← fieldDec fields "errors" unmarshalErrors []
  .ok ⟨status, errs⟩

/-- `DelegationOperationMetadata` (`operations.go`); `RevealOperationMetadata`
    is declared as the same type. -/
structure DelegationOperationMetadata where
  balanceUpdates : BalanceUpdates
  operationResult : DelegationOperationResult
deriving Repr

/-- Unmarshal a `DelegationOperationMetadata`. -/
def decodeDelegationOperationMetadata (j : Json) : Except String DelegationOperationMetadata := do
  let fields ← asObjFields j
  let bu ← fieldDec fields "balance_updates" decodeBalanceUpdates []
  let res ← fieldDec fields "operation_result" decodeDelegationOperationResult ⟨"", []⟩
  .ok ⟨bu, res⟩

/-- `RevealOperationElem` (`operations.go`). -/
structure RevealOperationElem where
  gen : GenericOperationElem
  source : String
  fee : Int
  counter : Int
  gasLimit : Int
  storageLimit : Int
  publicKey : String
  metadata : DelegationOperationMetadata
deriving Repr

/-- Unmarshal a `RevealOperationElem`. -/
def decodeRevealOperationElem (j : Json) : Except String RevealOperationElem := do
  let fields ← asObjFields j
  let gen ← decodeGenericOperationElem j
  let source ← fieldDec fields "source" decodeString ""
  let fee ← fieldDec fields "fee" decodeBigInt 0
  let counter ← fieldDec fields "counter" decodeBigInt 0
  let gasLimit ← fieldDec fields "gas_limit" decodeBigInt 0
  let storageLimit ← fieldDec fields "storage_limit" decodeBigInt 0
  let publicKey ← fieldDec fields "public_key" decodeString ""
  let metadata ← fieldDec fields "metadata" decodeDelegationOperationMetadata ⟨[], ⟨"", []⟩⟩
  .ok ⟨gen, source, fee, counter, gasLimit, storageLimit, publicKey, metadata⟩

/-- `ScriptedContracts` (`operations.go`). -/
structure ScriptedContracts where
  code : List (String × Json)
  storage : List (String × Json)
deriving Repr

/-- Unmarshal a `ScriptedContracts`. -/
def decodeScriptedContracts (j : Json) : Except String ScriptedContracts := do
  let fields ← asObjFields j
  let code ← fieldDec fields "code" decodeMap []
  let storage ← fieldDec fields "storage" decodeMap []
  .ok ⟨code, storage⟩

/-- `OriginationOperationResult` (`operations.go`). -/
structure OriginationOperationResult where
  status : String
  balanceUpdates : BalanceUpdates
  originatedContracts : List String
  consumedGas : Option Int
  storageSize : Option Int
  paidStorageSizeDiff : Option Int
  errors : Errors
deriving Repr

/-- Unmarshal an `OriginationOperationResult`. -/
def decodeOriginationOperationResult (j : Json) : Except String OriginationOperationResult := do
  let fields ← asObjFields j
  let status ← fieldDec fields "status" decodeString ""
  let bu ← fieldDec fields "balance_updates" decodeBalanceUpdates []
  let oc ← fieldDec fields "originated_contracts" decodeStringList []
  let cg ← fieldOpt fields "consumed_gas" decodeBigInt
  let ss ← fieldOpt fields "storage_size" decodeBigInt
  let pd ← fieldOpt fields "paid_storage_size_diff" decodeBigInt
  let errs ← fieldDec fields "errors" unmarshalErrors []
  .ok ⟨status, bu, oc, cg, ss, pd, errs⟩

/-- `OriginationOperationMetadata` (`operations.go`). -/
structure OriginationOperationMetadata where
  balanceUpdates : BalanceUpdates
  operationResult : OriginationOperationResult
deriving Repr

/-- Unmarshal an `OriginationOperationMetadata`. -/
def decodeOriginationOperationMetadata (j : Json) :
    Except String OriginationOperationMetadata := do
  let fields ← asObjFields j
  let bu ← fieldDec fields "balance_updates" decodeBalanceUpdates []
  let res ← fieldDec fields "operation_result" decodeOriginationOperationResult
    ⟨"", [], [], none, none, none, []⟩
  .ok ⟨bu, res⟩

/-- `OriginationOperationElem` (`operations.go`). -/
structure OriginationOperationElem where
  gen : GenericOperationElem
  source : String
  fee : Int
  counter : Int
  gasLimit : Int
  storageLimit : Int
  managerPubKey : String
  balance : Int
  spendable : Option Bool
  delegatable : Option Bool
  delegate : String
  script : Option ScriptedContracts
  metadata : OriginationOperationMetadata
deriving Repr

/-- Unmarshal an `OriginationOperationElem`. -/
def decodeOriginationOperationElem (j : Json) : Except String OriginationOperationElem := do
  let fields ← asObjFields j
  let gen ← decodeGenericOperationElem j
  let source ← fieldDec fields "source" decodeString ""
  let fee ← fieldDec fields "fee" decodeBigInt 0
  let counter ← fieldDec fields "counter" decodeBigInt 0
  let gasLimit ← fieldDec fields "gas_limit" decodeBigInt 0
  let storageLimit ← fieldDec fields "storage_limit" decodeBigInt 0
  let managerPubKey ← fieldDec fields "managerPubkey" decodeString ""
  let balance ← fieldDec fields "balance" decodeBigInt 0
  let spendable ← fieldOpt fields "spendable" decodeBool
  let delegatable ← fieldOpt fields "delegatable" decodeBool
  let delegate ← fieldDec fields "delegate" decodeString ""
  let script ← fieldOpt fields "script" decodeScriptedContracts
  let metadata ← fieldDec fields "metadata" decodeOriginationOperationMetadata
    ⟨[], ⟨"", [], [], none, none, none, []⟩⟩
  .ok ⟨gen, source, fee, counter, gasLimit, storageLimit, managerPubKey, balance,
        spendable, delegatable, delegate, script, metadata⟩

/-- `DelegationOperationElem` (`operations.go`). -/
structure DelegationOperationElem where
  gen : GenericOperationElem
  source : String
  fee : Int
  counter : Int
  gasLimit : Int
  storageLimit : Int
  managerPubKey : String
  balance : Int
  spendable : Option Bool
  delegatable : Option Bool
  delegate : String
  script : Option ScriptedContracts
  metadata : DelegationOperationMetadata
deriving Repr

/-- Unmarshal a `DelegationOperationElem`. -/
def decodeDelegationOperationElem (j : Json) : Except String DelegationOperationElem := do
  let fields ← asObjFields j
  let gen ← decodeGenericOperationElem j
  let source ← fieldDec fields "source" decodeString ""
  let fee ← fieldDec fields "fee" decodeBigInt 0
  let counter ← fieldDec fields "counter" decodeBigInt 0
  let gasLimit ← fieldDec fields "gas_limit" decodeBigInt 0
  let storageLimit ← fieldDec fields "storage_limit" decodeBigInt 0
  let managerPubKey ← fieldDec fields "managerPubkey" decodeString ""
  let balance ← fieldDec fields "balance" decodeBigInt 0
  let spendable ← fieldOpt fields "spendable" decodeBool
  let delegatable ← fieldOpt fields "delegatable" decodeBool
  let delegate ← fieldDec fields "delegate" decodeString ""
  let script ← fieldOpt fields "script" decodeScriptedContracts
  let metadata ← fieldDec fields "metadata" decodeDelegationOperationMetadata ⟨[], ⟨"", []⟩⟩
  .ok ⟨gen, source, fee, counter, gasLimit, storageLimit, managerPubKey, balance,
        spendable, delegatable, delegate, script, metadata⟩

/-- The `OperationElem` interface: one of the registered concrete variants
    or the generic fallback. -/
inductive OperationElem where
  | generic (e : GenericOperationElem)
  | endorsement (e : EndorsementOperationElem)
  | transaction (e : TransactionOperationElem)
  | ballot (e : BallotOperationElem)
  | proposals (e : ProposalOperationElem)
  | seedNonceRevelation (e : SeedNonceRevelationOperationElem)
  | doubleEndorsementEvidence (e : DoubleEndorsementEvidenceOperationElem)
  | doubleBakingEvidence (e : DoubleBakingEvidenceOperationElem)
  | activateAccount (e : ActivateAccountOperationElem)
  | reveal (e : RevealOperationElem)
  | origination (e : OriginationOperationElem)
  | delegation (e : DelegationOperationElem)
deriving Repr

/-- The concrete Go type of a decoded element. -/
inductive OpTag where
  | generic | endorsement | transaction | ballot | proposals | seedNonceRevelation
  | doubleEndorsementEvidence | doubleBakingEvidence | activateAccount | reveal
  | origination | delegation
deriving Repr, DecidableEq

/-- Concrete type of an `OperationElem` value. -/
def OperationElem.tag : OperationElem → OpTag
  | .generic e => .generic
  | .endorsement e => .endorsement
  | .transaction e => .transaction
  | .ballot e => .ballot
  | .proposals e => .proposals
  | .seedNonceRevelation e => .seedNonceRevelation
  | .doubleEndorsementEvidence e => .doubleEndorsementEvidence
  | .doubleBakingEvidence e => .doubleBakingEvidence
  | .activateAccount e => .activateAccount
  | .reveal e => .reveal
  | .origination e => .origination
  | .delegation e => .delegation

/-- The registry view of `OperationElements.UnmarshalJSON`'s switch: the
    concrete type registered for each discriminator; unknown discriminators
    are unregistered. -/
def registryTag : String → Option OpTag
  | "endorsement" => some .endorsement
  | "transaction" => some .transaction
  | "ballot" => some .ballot
  | "proposals" => some .proposals
  | "seed_nonce_revelation" => some .seedNonceRevelation
  | "double_endorsement_evidence" => some .doubleEndorsementEvidence
  | "double_baking_evidence" => some .doubleBakingEvidence
  | "activate_account" => some .activateAccount
  | "reveal" => some .reveal
  | "origination" => some .origination
  | "delegation" => some .delegation
  | k => none

/-- `OperationElemKind()`: every variant reports its discriminator. -/
def OperationElem.kind : OperationElem → String
  | .generic e => e.kind
  | .endorsement e => e.gen.kind
  | .transaction e => e.gen.kind
  | .ballot e => e.gen.kind
  | .proposals e => e.gen.kind
  | .seedNonceRevelation e => e.gen.kind
  | .doubleEndorsementEvidence e => e.gen.kind
  | .doubleBakingEvidence e => e.gen.kind
  | .activateAccount e => e.gen.kind
  | .reveal e => e.gen.kind
  | .origination e => e.gen.kind
  | .delegation e => e.gen.kind

/-- One element of `OperationElements.UnmarshalJSON`'s loop: pre-decode the
    discriminator into a `GenericOperationElem`, then switch on it; the
    default branch keeps the pre-decoded generic value (`continue opLoop`),
    the others fully decode the fragment into the registered concrete type. -/
def opElemSwitch (tmp : GenericOperationElem) (r : Json) : Except String OperationElem :=
  match tmp.kind with
  | "endorsement" => (decodeEndorsementOperationElem r).map .endorsement
  | "transaction" => (decodeTransactionOperationElem r).map .transaction
  | "ballot" => (decodeBallotOperationElem r).map .ballot
  | "proposals" => (decodeProposalOperationElem r).map .proposals
  | "seed_nonce_revelation" => (decodeSeedNonceRevelationOperationElem r).map .seedNonceRevelation
  | "double_endorsement_evidence" =>
      (decodeDoubleEndorsementEvidenceOperationElem r).map .doubleEndorsementEvidence
  | "double_baking_evidence" =>
      (decodeDoubleBakingEvidenceOperationElem r).map .doubleBakingEvidence
  | "activate_account" => (decodeActivateAccountOperationElem r).map .activateAccount
  | "reveal" => (decodeRevealOperationElem r).map .reveal
  | "origination" => (decodeOriginationOperationElem r).map .origination
  | "delegation" => (decodeDelegationOperationElem r).map .delegation
  | k => .ok (.generic tmp)

/-- The element decode including the discriminator pre-decode. -/
def decodeOperationElem (r : Json) : Except String OperationElem :=
  match decodeGenericOperationElem r with
  | .error e => .error e
  | .ok tmp => opElemSwitch tmp r

/-- The fresh allocation `(*e)[i] = &T{}` the switch stores for a registered
    operation-element discriminator before the full unmarshal.  The embedded
    generic part holds the pre-decoded discriminator record: the failing
    unmarshal re-reads `kind` from the same object, so it is populated
    exactly as in the pre-decode; partial writes to the remaining fields by
    the failing unmarshal are not modelled (they stay zero). -/
def allocForTag (t : OpTag) (tmp : GenericOperationElem) : OperationElem :=
  match t with
  | .generic => .generic tmp
  | .endorsement => .endorsement ⟨tmp, 0, ⟨[], "", []⟩⟩
  | .transaction =>
      .transaction ⟨tmp, "", 0, 0, 0, 0, 0, "", [],
        ⟨[], ⟨"", [], [], [], none, none, none, []⟩⟩⟩
  | .ballot => .ballot ⟨tmp, "", 0, "", "", []⟩
  | .proposals => .proposals ⟨tmp, "", 0, [], []⟩
  | .seedNonceRevelation => .seedNonceRevelation ⟨tmp, 0, "", ⟨[]⟩⟩
  | .doubleEndorsementEvidence =>
      .doubleEndorsementEvidence ⟨tmp, ⟨"", ⟨"", 0⟩, ""⟩, ⟨"", ⟨"", 0⟩, ""⟩, ⟨[]⟩⟩
  | .doubleBakingEvidence =>
      .doubleBakingEvidence ⟨tmp, zeroRawBlockHeader, zeroRawBlockHeader, ⟨[]⟩⟩
  | .activateAccount => .activateAccount ⟨tmp, "", "", ⟨[]⟩⟩
  | .reveal => .reveal ⟨tmp, "", 0, 0, 0, 0, "", ⟨[], ⟨"", []⟩⟩⟩
  | .origination =>
      .origination ⟨tmp, "", 0, 0, 0, 0, "", 0, none, none, "", none,
        ⟨[], ⟨"", [], [], none, none, none, []⟩⟩⟩
  | .delegation =>
      .delegation ⟨tmp, "", 0, 0, 0, 0, "", 0, none, none, "", none, ⟨[], ⟨"", []⟩⟩⟩

/-- The fill loop of `OperationElements.UnmarshalJSON`: pre-decode the
    discriminator (failure returns with the slot still nil), keep the
    pre-decoded generic value for an unregistered discriminator
    (`continue opLoop`), and for a registered one store the fresh allocation
    and fully decode over it — a full-decode failure returns with the
    allocation (not nil) in the slot. -/
def opElemsLoop : List Json → Except String Unit × List (Option OperationElem)
  | [] => (.ok (), [])
  | r :: rest =>
      match decodeGenericOperationElem r with
      | .error e => (.error e, none :: List.replicate rest.length none)
      | .ok tmp =>
          match registryTag tmp.kind with
          | none =>
              let p := opElemsLoop rest
              (p.1, some (.generic tmp) :: p.2)
          | some t =>
              match opElemSwitch tmp r with
              | .error e =>
                  (.error e, some (allocForTag t tmp) :: List.replicate rest.length none)
              | .ok elem =>
                  let p := opElemsLoop rest
                  (p.1, some elem :: p.2)

/-- `OperationElements.UnmarshalJSON` (`operations.go`): parse the document
    as an array of raw fragments (failure leaves the destination untouched),
    replace the destination by a fresh nil-filled slice of that length and
    run the loop. -/
def OperationElements.unmarshalJSON (data : Json) (prev : List (Option OperationElem)) :
    Except String Unit × List (Option OperationElem) :=
  match asRawArray data with
  | .error e => (.error e, prev)
  | .ok raw => opElemsLoop raw

/-- A fragment whose discriminator pre-decodes, is registered, and whose
    full decode into the registered concrete type succeeds. -/
def opElemWellRegistered (r : Json) : Bool :=
  match decodeGenericOperationElem r with
  | .ok tmp => (registryTag tmp.kind).isSome && isOkE (decodeOperationElem r)
  | .error e => false

/-- Likewise for the `operations.go` balance-update family. -/
def buWellRegistered (r : Json) : Bool :=
  match decodeGenericBalanceUpdate r with
  | .ok tmp => (buRegistryTag tmp.kind).isSome && isOkE (decodeBalanceUpdateElem r)
  | .error e => false

end Ops

namespace Block

/-- `GenericBalanceUpdate` (`block.go` iteration): here `Change` is a plain
    string field. -/
structure GenericBalanceUpdate where
  kind : String
  change : String
deriving Repr

/-- `ContractBalanceUpdate` (`block.go`). -/
structure ContractBalanceUpdate where
  gen : GenericBalanceUpdate
  contract : String
deriving Repr

/-- `FreezerBalanceUpdate` (`block.go`): `Level` is `int32`. -/
structure FreezerBalanceUpdate where
  gen : GenericBalanceUpdate
  category : String
  delegate : String
  level : Int
deriving Repr

/-- The `BalanceUpdateType` interface (`block.go`): this family has no
    generic fallback variant. -/
inductive BalanceUpdateType where
  | contract (e : ContractBalanceUpdate)
  | freezer (e : FreezerBalanceUpdate)
deriving Repr

/-- `GetKind()` (`block.go`). -/
def BalanceUpdateType.kind : BalanceUpdateType → String
  | .contract e => e.gen.kind
  | .freezer e => e.gen.kind

/-- Unmarshal a `block.go` `GenericBalanceUpdate`. -/
def decodeGenericBalanceUpdate (j : Json) : Except String GenericBalanceUpdate := do
  let fields ← asObjFields j
  let kind ← fieldDec fields "kind" decodeString ""
  let change ← fieldDec fields "change" decodeString ""
  .ok ⟨kind, change⟩

/-- Unmarshal a `block.go` `ContractBalanceUpdate`.  The source
    pre-populates the embedded `Kind` with the pre-decoded discriminator and
    then unmarshals the same fragment over it, which rewrites the identical
    value, so decoding into a zero value is equivalent. -/
def decodeContractBalanceUpdate (j : Json) : Except String ContractBalanceUpdate := do
  let fields ← asObjFields j
  let gen ← decodeGenericBalanceUpdate j
  let contract ← fieldDec fields "contract" decodeString ""
  .ok ⟨gen, contract⟩

/-- Unmarshal a `block.go` `FreezerBalanceUpdate`. -/
def decodeFreezerBalanceUpdate (j : Json) : Except String FreezerBalanceUpdate := do
  let fields ← asObjFields j
  let gen ← decodeGenericBalanceUpdate j
  let category ← fieldDec fields "category" decodeString ""
  let delegate ← fieldDec fields "delegate" decodeString ""
  let level ← fieldDec fields "level" decodeInt32 0
  .ok ⟨gen, category, delegate, level⟩

/-- One element of the anonymous `aTemp` slice: only the `kind` field. -/
def decodeKindOnly (j : Json) : Except String String := do
  let fields ← asObjFields j
  fieldDec fields "kind" decodeString ""

/-- `json.Unmarshal(data, &aTemp)`: the kind of every element. -/
def decodeKindArray : Json → Except String (List String)
  | .arr elems => elems.mapM decodeKindOnly
  | .null => .ok []
  | j => .error "json: cannot unmarshal value into Go slice"

/-- The switch of `BalanceUpdatesType.UnmarshalJSON` (`block.go`): unlike
    the `operations.go` families, the default branch is a hard error. -/
def decodeBalanceUpdateVariant (k : String) (r : Json) : Except String BalanceUpdateType :=
  match k with
  | "contract" => (decodeContractBalanceUpdate r).map .contract
  | "freezer" => (decodeFreezerBalanceUpdate r).map .freezer
  | k' => .error ("Unknown BalanceUpdates.Kind: " ++ k')

/-- The fill loop of `BalanceUpdatesType.UnmarshalJSON`, pairing each
    pre-decoded kind with its raw fragment. -/
def blockBuLoop : List (String × Json) → Except String Unit × List (Option BalanceUpdateType)
  | [] => (.ok (), [])
  | (k, r) :: rest =>
      match decodeBalanceUpdateVariant k r with
      | .error e => (.error e, none :: List.replicate rest.length none)
      | .ok elem =>
          let p := blockBuLoop rest
          (p.1, some elem :: p.2)

/-- `BalanceUpdatesType.UnmarshalJSON` (`block.go`): decode the kinds, keep
    the fragments raw, replace the destination by a fresh nil-filled slice
    of the input's length and fill it; an unknown kind or a failing element
    aborts with an error. -/
def BalanceUpdatesType.unmarshalJSON (data : Json) (prev : List (Option BalanceUpdateType)) :
    Except String Unit × List (Option BalanceUpdateType) :=
  match decodeKindArray data with
  | .error e => (.error e, prev)
  | .ok kinds =>
      match asRawArray data with
      | .error e => (.error e, prev)
      | .ok raws => blockBuLoop (kinds.zip raws)

end Block

/-! ### utils.go: the heterogeneous-tuple decoder -/

/-- The fill loop of `unmarshalHeterogeneousJSONArray`: decode the leading
    raw fragments, one per destination.  A destination is modelled as its
    decode function into the common result type `α`. -/
def hetLoop : List (Json → Except String α) → List Json → Except String (List α)
  | [], rs => .ok []
  | d :: ds, [] => .error "JSON array exhausted"
  | d :: ds, r :: rs =>
      match d r with
      | .error e => .error e
      | .ok a => (hetLoop ds rs).map (a :: ·)

/-- `unmarshalHeterogeneousJSONArray` (`utils.go`): parse the document as an
    array of raw fragments, require at least as many elements as
    destinations, and decode element `i` into destination `i`; extra
    trailing elements are not consumed. -/
def unmarshalHeterogeneousJSONArray (data : Json) (v : List (Json → Except String α)) :
    Except String (List α) :=
  match asRawArray data with
  | .error e => .error e
  | .ok raw =>
      if raw.length < v.length then
        .error ("JSON array is too short, expected " ++ toString v.length ++
          ", got " ++ toString raw.length)
      else hetLoop v raw

/-- `NetworkAddress` (`service.go`): a point's address and port. -/
structure NetworkAddress where
  addr : String
  port : Int
deriving Repr

/-- Unmarshal a `NetworkAddress`. -/
def decodeNetworkAddress (j : Json) : Except String NetworkAddress := do
  let fields ← asObjFields j
  let addr ← fieldDec fields "addr" decodeString ""
  let port ← fieldDec fields "port" decodeUint16 0
  .ok ⟨addr, port⟩

/-- A common result type for a concrete heterogeneous destination pair
    (a string hash and an address record), used to instantiate the tuple
    decoder at the spec's example. -/
inductive TupleVal where
  | s (x : String)
  | addr (x : NetworkAddress)
deriving Repr

/-! ### client.go: response dispatcher and error classifier

A response body is modelled as the finite sequence of well-formed JSON
values a `json.Decoder` would read from it, optionally followed by
unparseable garbage.  `Decode` returns `io.EOF` exactly on a clean
end-of-body and a syntax error on garbage. -/

/-- An error returned by `json.Decoder.Decode`. -/
inductive DecErr where
  | eof
  | syntaxError (text : String)
deriving Repr, DecidableEq

/-- A readable response body. -/
structure RawBody where
  values : List Json
  garbage : Option String
deriving Repr

/-- One `json.Decoder.Decode` step on the body. -/
def decodeNext : RawBody → Except DecErr (Json × RawBody)
  | ⟨[], none⟩ => .error .eof
  | ⟨[], some g⟩ => .error (.syntaxError g)
  | ⟨val :: vs, t⟩ => .ok (val, ⟨vs, t⟩)

/-- `httpError` (`client.go`): status, status code and the raw body. -/
structure HttpError where
  status : String
  statusCode : Nat
  body : RawBody
deriving Repr

/-- The errors `Do` can return.  `plain` models `*plainError` (an
    `httpError` plus a message) and `rpc` models `*rpcError` (an `httpError`
    plus the structured error list) — both defined outside the provided
    sources but fully determined by their construction sites in `Do`.
    `jsonDecode` is a raw `json` decoding error returned unwrapped from
    `handleNormalResponse`, and `canceled` is `ctx.Err()`. -/
inductive RespError where
  | http (e : HttpError)
  | plain (base : HttpError) (msg : String)
  | rpc (base : HttpError) (errors : Errors)
  | jsonDecode (e : DecErr)
  | canceled
deriving Repr

/-- The destination descriptor `v`: a channel (with the point, measured in
    elements already delivered, at which the caller's cancellation signal
    fires, if ever) or a single-value slot. -/
inductive Dest where
  | chan (cancelAfter : Option Nat)
  | single

/-- The observable outcome of a dispatch: the returned error, the elements
    sent to the channel in order, and the value decoded into a single-value
    destination. -/
structure DispatchResult where
  err : Option RespError
  delivered : List Json
  written : Option Json
deriving Repr

/-- Whether the cancellation signal has fired once `n` elements have been
    delivered. -/
def ctxDone : Option Nat → Nat → Bool
  | some k, n => k ≤ n
  | none, _ => false

/-- The streaming loop of `handleNormalResponse`: decode one value, then
    `select` between sending it and the cancellation signal.  On a clean
    end-of-body the loop breaks and returns nil; on garbage the decode error
    is returned.  When cancellation has fired the `select` race against a
    ready send is resolved deterministically in its favor, the documented
    outcome (the spec requires only a deterministic winner per
    implementation). -/
def streamLoop (cancelAfter : Option Nat) (garbage : Option String) :
    List Json → Nat → Option RespError × List Json
  | [], n =>
      match garbage with
      | none => (none, [])
      | some g => (some (.jsonDecode (.syntaxError g)), [])
  | val :: vs, n =>
      if ctxDone cancelAfter n then (some .canceled, [])
      else
        let p := streamLoop cancelAfter garbage vs (n + 1)
        (p.1, val :: p.2)

/-- `handleNormalResponse` (`client.go`): a channel destination streams the
    body; any other destination receives exactly one decoded JSON value,
    with no check for data remaining in the body afterwards. -/
def handleNormalResponse (v : Dest) (body : RawBody) : DispatchResult :=
  match v with
  | .chan cancelAfter =>
      let p := streamLoop cancelAfter body.garbage body.values 0
      ⟨p.1, p.2, none⟩
  | .single =>
      match decodeNext body with
      | .error e => ⟨some (.jsonDecode e), [], none⟩
      | .ok (val, rest) => ⟨none, [], some val⟩

/-- A transport response as `Do` sees it: status code, status text, the
    `Content-Type` header and the body. -/
structure Response where
  statusCode : Nat
  status : String
  contentType : String
  body : RawBody

/-- Whether `pat` is a leading run of `l`. -/
def startsWithChars : List Char → List Char → Bool
  | [], l => true
  | c :: cs, [] => false
  | c :: cs, d :: ds => (c = d) && startsWithChars cs ds

/-- Whether `pat` occurs as a contiguous run inside `l`. -/
def containsChars (pat : List Char) : List Char → Bool
  | [] => pat.isEmpty
  | d :: ds => startsWithChars pat (d :: ds) || containsChars pat ds

/-- `strings.Contains`. -/
def strContains (s pat : String) : Bool :=
  containsChars pat.data s.data

/-- `json.Unmarshal(body, &errs)` over the whole error body: it must consist
    of exactly one well-formed JSON value with nothing after it, and that
    value must decode as the protocol-error list. -/
def unmarshalBodyErrors : RawBody → Except String Errors
  | ⟨[v], none⟩ => unmarshalErrors v
  | ⟨[], none⟩ => .error "unexpected end of JSON input"
  | ⟨vs, none⟩ => .error "invalid character after top-level value"
  | ⟨vs, some g⟩ => .error ("invalid character in garbage: " ++ g)

/-- `RPCClient.Do` (`client.go`) after a successful transport round-trip:
    204 returns immediately; other 2xx dispatch to `handleNormalResponse`
    unless the destination is nil; everything else is classified, with
    structured interpretation attempted only for a 5xx whose `Content-Type`
    contains `application/json`.  (Errors from closing the body and the
    metrics callbacks are not modelled.) -/
def RPCClient.Do (resp : Response) (v : Option Dest) : DispatchResult :=
  if resp.statusCode = 204 then ⟨none, [], none⟩
  else if resp.statusCode / 100 = 2 then
    match v with
    | none => ⟨none, [], none⟩
    | some dst => handleNormalResponse dst resp.body
  else
    let httpErr : HttpError := ⟨resp.status, resp.statusCode, resp.body⟩
    if resp.statusCode / 100 != 5 || !strContains resp.contentType "application/json" then
      ⟨some (.http httpErr), [], none⟩
    else
      match unmarshalBodyErrors resp.body with
      | .error e => ⟨some (.plain httpErr ("tezos: error decoding RPC error: " ++ e)), [], none⟩
      | .ok [] => ⟨some (.plain httpErr "tezos: empty error response"), [], none⟩
      | .ok errs => ⟨some (.rpc httpErr errs), [], none⟩

/-! ### General lemmas about the embedded combinators -/

theorem except_map_eq_ok {ε α β : Type} {f : α → β} {x : Except ε α} {b : β} :
    x.map f = .ok b ↔ ∃ a, x = .ok a ∧ f a = b := by
  cases x <;> simp [Except.map]

theorem isOkE_map {ε α β : Type} {f : α → β} (x : Except ε α) :
    isOkE (x.map f) = isOkE x := by
  cases x <;> rfl


theorem streamLoop_no_cancel (g : Option String) :
    ∀ (vs : List Json) (n : Nat),
      streamLoop none g vs n =
        (match g with
          | none => (none, vs)
          | some gg => (some (.jsonDecode (.syntaxError gg)), vs))
  | [], n => by cases g <;> rfl
  | v :: vs, n => by
      have ih := streamLoop_no_cancel g vs (n + 1)
      cases g <;> simp_all [streamLoop, ctxDone]

theorem streamLoop_cancel (k : Nat) :
    ∀ (vs : List Json) (g : Option String) (n : Nat), n ≤ k → k - n < vs.length →
      streamLoop (some k) g vs n = (some .canceled, vs.take (k - n))
  | [], g, n, h1, h2 => by simp at h2
  | v :: vs, g, n, h1, h2 => by
      by_cases hk : k ≤ n
      · have he : k - n = 0 := Nat.sub_eq_zero_of_le hk
        simp [streamLoop, ctxDone, hk, he]
      · have hk' : n + 1 ≤ k := Nat.succ_le_of_lt (Nat.lt_of_not_le hk)
        have h2' : k - (n + 1) < vs.length := by
          simp only [List.length_cons] at h2; omega
        have ih := streamLoop_cancel k vs g (n + 1) hk' h2'
        have hkn : k - n = (k - (n + 1)) + 1 := by omega
        simp [streamLoop, ctxDone, hk, ih, hkn]

theorem hetLoop_isOk {α : Type} :
    ∀ (ds : List (Json → Except String α)) (raw : List Json), ds.length ≤ raw.length →
      (isOkE (hetLoop ds raw) = true ↔
        ∀ p ∈ List.zipWith (fun d r => d r) ds raw, isOkE p = true)
  | [], raw, h => by simp [hetLoop, isOkE]
  | d :: ds, [], h => by simp at h
  | d :: ds, r :: rs, h => by
      have ih := hetLoop_isOk ds rs (by simpa using h)
      cases hd : d r with
      | error e => simp [hetLoop, hd, isOkE]
      | ok a =>
          rw [hetLoop, hd, isOkE_map, ih, List.zipWith_cons_cons]
          constructor
          · intro hall p hp
            rcases List.mem_cons.mp hp with rfl | hp'
            · rw [hd]; rfl
            · exact hall p hp'
          · intro hall p hp
            exact hall p (List.mem_cons_of_mem _ hp)

theorem hetLoop_get {α : Type} :
    ∀ (ds : List (Json → Except String α)) (raw : List Json) (out : List α),
      hetLoop ds raw = .ok out →
      out.length = ds.length ∧
      ∀ (i : Nat) (d : Json → Except String α) (r : Json),
        ds[i]? = some d → raw[i]? = some r →
        ∃ a, d r = .ok a ∧ out[i]? = some a
  | [], raw, out, h => by
      simp [hetLoop] at h
      subst h
      simp
  | d :: ds, [], out, h => by simp [hetLoop] at h
  | d :: ds, r :: rs, out, h => by
      rw [hetLoop] at h
      cases hd : d r with
      | error e => rw [hd] at h; simp at h
      | ok a =>
          rw [hd] at h
          obtain ⟨out', hout', rfl⟩ := except_map_eq_ok.mp h
          obtain ⟨hlen, hidx⟩ := hetLoop_get ds rs out' hout'
          refine ⟨by simp [hlen], ?_⟩
          intro i d' r' hd' hr'
          cases i with
          | zero =>
              simp at hd' hr'
              subst hd'; subst hr'
              exact ⟨a, hd, by simp⟩
          | succ n =>
              simp at hd' hr'
              simpa using hidx n d' r' hd' hr'

theorem hetLoop_truncate {α : Type} :
    ∀ (ds : List (Json → Except String α)) (raw : List Json),
      hetLoop ds raw = hetLoop ds (raw.take ds.length)
  | [], raw => by cases raw <;> rfl
  | d :: ds, [] => rfl
  | d :: ds, r :: rs => by
      simp only [List.length_cons, List.take_succ_cons]
      rw [hetLoop, hetLoop, hetLoop_truncate ds rs]

/-! ### Dispatch lemmas for the `operations.go` variant families -/

theorem decodeOperationElem_of_pre (r : Json) (tmp : Ops.GenericOperationElem)
    (h1 : Ops.decodeGenericOperationElem r = .ok tmp) :
    Ops.decodeOperationElem r = Ops.opElemSwitch tmp r := by
  unfold Ops.decodeOperationElem
  rw [h1]

theorem opElemSwitch_fallback (tmp : Ops.GenericOperationElem) (r : Json)
    (h : Ops.registryTag tmp.kind = none) :
    Ops.opElemSwitch tmp r = .ok (.generic tmp) := by
  unfold Ops.opElemSwitch
  split <;> simp_all [Ops.registryTag]

theorem opElemSwitch_tag (tmp : Ops.GenericOperationElem) (r : Json)
    (e : Ops.OperationElem) (t : Ops.OpTag)
    (ht : Ops.registryTag tmp.kind = some t)
    (h2 : Ops.opElemSwitch tmp r = .ok e) :
    e.tag = t := by
  unfold Ops.opElemSwitch at h2
  split at h2 <;>
    first
    | (obtain ⟨a, ha, rfl⟩ := except_map_eq_ok.mp h2
       simp_all [Ops.registryTag, Ops.OperationElem.tag])
    | (exfalso
       unfold Ops.registryTag at ht
       split at ht <;> simp_all)

theorem decodeBalanceUpdateElem_of_pre (r : Json) (tmp : Ops.GenericBalanceUpdate)
    (h1 : Ops.decodeGenericBalanceUpdate r = .ok tmp) :
    Ops.decodeBalanceUpdateElem r = Ops.buSwitch tmp r := by
  unfold Ops.decodeBalanceUpdateElem
  rw [h1]

theorem buSwitch_fallback (tmp : Ops.GenericBalanceUpdate) (r : Json)
    (h : Ops.buRegistryTag tmp.kind = none) :
    Ops.buSwitch tmp r = .ok (.generic tmp) := by
  unfold Ops.buSwitch
  split <;> simp_all [Ops.buRegistryTag]

theorem buSwitch_tag (tmp : Ops.GenericBalanceUpdate) (r : Json)
    (e : Ops.BalanceUpdate) (t : Ops.BuTag)
    (ht : Ops.buRegistryTag tmp.kind = some t)
    (h2 : Ops.buSwitch tmp r = .ok e) :
    e.tag = t := by
  unfold Ops.buSwitch at h2
  split at h2 <;>
    first
    | (obtain ⟨a, ha, rfl⟩ := except_map_eq_ok.mp h2
       simp_all [Ops.buRegistryTag, Ops.BalanceUpdate.tag])
    | (exfalso
       unfold Ops.buRegistryTag at ht
       split at ht <;> simp_all)

theorem isOkE_iff {ε α : Type} {x : Except ε α} : isOkE x = true ↔ ∃ a, x = .ok a := by
  cases x <;> simp [isOkE]

theorem except_bind_ok {ε α β : Type} (a : α) (f : α → Except ε β) :
    (Except.ok (ε := ε) a >>= f) = f a := rfl

theorem decodeOperationElem_pre_error (r : Json) (e : String)
    (hg : Ops.decodeGenericOperationElem r = .error e) :
    Ops.decodeOperationElem r = .error e := by
  unfold Ops.decodeOperationElem
  rw [hg]

theorem decodeBalanceUpdateElem_pre_error (r : Json) (e : String)
    (hg : Ops.decodeGenericBalanceUpdate r = .error e) :
    Ops.decodeBalanceUpdateElem r = .error e := by
  unfold Ops.decodeBalanceUpdateElem
  rw [hg]

theorem opElemsLoop_cons_of_ok (r : Json) (rest : List Json) (elem : Ops.OperationElem)
    (h : Ops.decodeOperationElem r = .ok elem) :
    Ops.opElemsLoop (r :: rest) =
      ((Ops.opElemsLoop rest).1, some elem :: (Ops.opElemsLoop rest).2) := by
  cases hg : Ops.decodeGenericOperationElem r with
  | error e =>
      rw [decodeOperationElem_pre_error r e hg] at h
      exact absurd h (by simp)
  | ok tmp =>
      rw [decodeOperationElem_of_pre r tmp hg] at h
      cases hrt : Ops.registryTag tmp.kind with
      | none =>
          rw [opElemSwitch_fallback tmp r hrt] at h
          injection h with h
          subst h
          simp [Ops.opElemsLoop, hg, hrt]
      | some t =>
          simp [Ops.opElemsLoop, hg, hrt, h]

theorem opElemsLoop_ok :
    ∀ raw : List Json, (∀ r ∈ raw, isOkE (Ops.decodeOperationElem r) = true) →
      Ops.opElemsLoop raw = (.ok (), raw.map (fun r => okValue (Ops.decodeOperationElem r)))
  | [], h => rfl
  | r :: rest, h => by
      obtain ⟨elem, helem⟩ := isOkE_iff.mp (h r (by simp))
      have ih := opElemsLoop_ok rest (fun r' hr' => h r' (by simp [hr']))
      rw [opElemsLoop_cons_of_ok r rest elem helem, ih]
      simp [okValue, helem]

theorem opElemsLoop_error_pre :
    ∀ (raw1 : List Json) (r : Json) (raw2 : List Json) (e : String),
      (∀ r' ∈ raw1, isOkE (Ops.decodeOperationElem r') = true) →
      Ops.decodeGenericOperationElem r = .error e →
      Ops.opElemsLoop (raw1 ++ r :: raw2) =
        (.error e, raw1.map (fun r' => okValue (Ops.decodeOperationElem r')) ++
          none :: List.replicate raw2.length none)
  | [], r, raw2, e, h1, h2 => by simp [Ops.opElemsLoop, h2]
  | r1 :: rest, r, raw2, e, h1, h2 => by
      obtain ⟨a, ha⟩ := isOkE_iff.mp (h1 r1 (by simp))
      have ih := opElemsLoop_error_pre rest r raw2 e
        (fun r' hr' => h1 r' (by simp [hr'])) h2
      rw [List.cons_append, opElemsLoop_cons_of_ok r1 (rest ++ r :: raw2) a ha, ih]
      simp [okValue, ha]

theorem opElemsLoop_error_full :
    ∀ (raw1 : List Json) (r : Json) (raw2 : List Json) (e : String)
      (tmp : Ops.GenericOperationElem) (t : Ops.OpTag),
      (∀ r' ∈ raw1, isOkE (Ops.decodeOperationElem r') = true) →
      Ops.decodeGenericOperationElem r = .ok tmp →
      Ops.registryTag tmp.kind = some t →
      Ops.opElemSwitch tmp r = .error e →
      Ops.opElemsLoop (raw1 ++ r :: raw2) =
        (.error e, raw1.map (fun r' => okValue (Ops.decodeOperationElem r')) ++
          some (Ops.allocForTag t tmp) :: List.replicate raw2.length none)
  | [], r, raw2, e, tmp, t, h1, hg, hrt, hsw => by
      simp [Ops.opElemsLoop, hg, hrt, hsw]
  | r1 :: rest, r, raw2, e, tmp, t, h1, hg, hrt, hsw => by
      obtain ⟨a, ha⟩ := isOkE_iff.mp (h1 r1 (by simp))
      have ih := opElemsLoop_error_full rest r raw2 e tmp t
        (fun r' hr' => h1 r' (by simp [hr'])) hg hrt hsw
      rw [List.cons_append, opElemsLoop_cons_of_ok r1 (rest ++ r :: raw2) a ha, ih]
      simp [okValue, ha]

theorem buElemsLoop_cons_of_ok (r : Json) (rest : List Json) (elem : Ops.BalanceUpdate)
    (h : Ops.decodeBalanceUpdateElem r = .ok elem) :
    Ops.buElemsLoop (r :: rest) =
      ((Ops.buElemsLoop rest).1, some elem :: (Ops.buElemsLoop rest).2) := by
  cases hg : Ops.decodeGenericBalanceUpdate r with
  | error e =>
      rw [decodeBalanceUpdateElem_pre_error r e hg] at h
      exact absurd h (by simp)
  | ok tmp =>
      rw [decodeBalanceUpdateElem_of_pre r tmp hg] at h
      cases hrt : Ops.buRegistryTag tmp.kind with
      | none =>
          rw [buSwitch_fallback tmp r hrt] at h
          injection h with h
          subst h
          simp [Ops.buElemsLoop, hg, hrt]
      | some t =>
          simp [Ops.buElemsLoop, hg, hrt, h]

theorem buElemsLoop_ok :
    ∀ raw : List Json, (∀ r ∈ raw, isOkE (Ops.decodeBalanceUpdateElem r) = true) →
      Ops.buElemsLoop raw =
        (.ok (), raw.map (fun r => okValue (Ops.decodeBalanceUpdateElem r)))
  | [], h => rfl
  | r :: rest, h => by
      obtain ⟨elem, helem⟩ := isOkE_iff.mp (h r (by simp))
      have ih := buElemsLoop_ok rest (fun r' hr' => h r' (by simp [hr']))
      rw [buElemsLoop_cons_of_ok r rest elem helem, ih]
      simp [okValue, helem]

theorem allocForTag_tag (t : Ops.OpTag) (tmp : Ops.GenericOperationElem) :
    (Ops.allocForTag t tmp).tag = t := by
  cases t <;> rfl

theorem allocForTag_kind (t : Ops.OpTag) (tmp : Ops.GenericOperationElem) :
    (Ops.allocForTag t tmp).kind = tmp.kind := by
  cases t <;> rfl

/-! ### Claims -/

/-- C5: the heterogeneous-tuple decoder fails exactly when the input array
    has fewer elements than destinations or some leading element fails to
    decode into its destination; on success each destination `i` receives
    the decode of array element `i`, independently of the other positions. -/
theorem claim_C5 {α : Type} (raw : List Json) (v : List (Json → Except String α)) :
    (isOkE (unmarshalHeterogeneousJSONArray (.arr raw) v) = true ↔
      (v.length ≤ raw.length ∧
        ∀ p ∈ List.zipWith (fun d r => d r) v raw, isOkE p = true))
    ∧ (∀ out, unmarshalHeterogeneousJSONArray (.arr raw) v = .ok out →
        out.length = v.length ∧
        ∀ (i : Nat) (d : Json → Except String α) (r : Json),
          v[i]? = some d → raw[i]? = some r →
          ∃ a, d r = .ok a ∧ out[i]? = some a) := by
  unfold unmarshalHeterogeneousJSONArray
  simp only [asRawArray]
  constructor
  · by_cases h : raw.length < v.length
    · rw [if_pos h]
      simp only [isOkE]
      constructor
      · intro hfalse; exact absurd hfalse (by simp)
      · intro ⟨hle, _⟩; omega
    · rw [if_neg h]
      rw [hetLoop_isOk v raw (Nat.le_of_not_lt h)]
      constructor
      · intro hall; exact ⟨Nat.le_of_not_lt h, hall⟩
      · intro ⟨_, hall⟩; exact hall
  · intro out hout
    by_cases h : raw.length < v.length
    · rw [if_pos h] at hout; exact absurd hout (by simp)
    · rw [if_neg h] at hout
      exact hetLoop_get v raw out hout

/-- C5 witness: the spec's example `["abc123", {"addr": "1.2.3.4",
    "port": 9732}]` decoded into a string and an address record. -/
theorem claim_C5_witness :
    unmarshalHeterogeneousJSONArray
        (.arr [.str "abc123", .obj [("addr", .str "1.2.3.4"), ("port", .num 9732)]])
        [fun j => (decodeString j).map TupleVal.s,
         fun j => (decodeNetworkAddress j).map TupleVal.addr] =
      .ok [TupleVal.s "abc123", TupleVal.addr ⟨"1.2.3.4", 9732⟩] ∧
    ([TupleVal.s "abc123", TupleVal.addr ⟨"1.2.3.4", 9732⟩] : List TupleVal).length = 2 := by
  refine ⟨rfl, ?_⟩
  have h := (claim_C5 (α := TupleVal)
      [.str "abc123", .obj [("addr", .str "1.2.3.4"), ("port", .num 9732)]]
      [fun j => (decodeString j).map TupleVal.s,
       fun j => (decodeNetworkAddress j).map TupleVal.addr]).2
      [TupleVal.s "abc123", TupleVal.addr ⟨"1.2.3.4", 9732⟩] rfl
  exact h.1

/-- C10: when the input array is strictly longer than the destination list
    the tuple decoder behaves exactly as on the truncated array — the extra
    trailing elements are ignored and never cause an error — and it succeeds
    whenever the leading elements decode. -/
theorem claim_C10 {α : Type} (raw : List Json) (v : List (Json → Except String α))
    (h : v.length < raw.length) :
    unmarshalHeterogeneousJSONArray (.arr raw) v =
      unmarshalHeterogeneousJSONArray (.arr (raw.take v.length)) v
    ∧ ((∀ p ∈ List.zipWith (fun d r => d r) v raw, isOkE p = true) →
        isOkE (unmarshalHeterogeneousJSONArray (.arr raw) v) = true) := by
  have hle : v.length ≤ raw.length := Nat.le_of_lt h
  have htk : (raw.take v.length).length = v.length := by
    simp [List.length_take]
    omega
  constructor
  · unfold unmarshalHeterogeneousJSONArray
    simp only [asRawArray]
    rw [if_neg (Nat.not_lt.mpr hle), if_neg (by rw [htk]; exact Nat.lt_irrefl _)]
    exact hetLoop_truncate v raw
  · intro hall
    unfold unmarshalHeterogeneousJSONArray
    simp only [asRawArray]
    rw [if_neg (Nat.not_lt.mpr hle)]
    exact (hetLoop_isOk v raw hle).mpr hall

/-- C10 witness: a three-element array decoded into a single destination. -/
theorem claim_C10_witness :
    unmarshalHeterogeneousJSONArray (.arr [.str "abc", .null, .null])
        [fun j => (decodeString j).map TupleVal.s] =
      unmarshalHeterogeneousJSONArray
        (.arr ([Json.str "abc", Json.null, Json.null].take 1))
        [fun j => (decodeString j).map TupleVal.s] ∧
    isOkE (unmarshalHeterogeneousJSONArray (.arr [.str "abc", .null, .null])
        [fun j => (decodeString j).map TupleVal.s]) = true := by
  have h := claim_C10 (α := TupleVal) [.str "abc", .null, .null]
      [fun j => (decodeString j).map TupleVal.s] (by decide)
  refine ⟨h.1, h.2 ?_⟩
  intro p hp
  simp only [List.zipWith_cons_cons, List.zipWith_nil_left, List.mem_singleton] at hp
  subst hp
  rfl

/-- C1 (amended): in the `operations.go` variant families (operation
    elements and balance updates) an element whose discriminator is not
    registered — including an element whose discriminator field is absent —
    is retained as the generic fallback value preserving the discriminator
    string, and the decode as a whole succeeds whenever every element's
    decode does; the `block.go` `BalanceUpdatesType` family, by contrast,
    fails the whole decode on an unknown discriminator. -/
theorem claim_C1_amended :
    (∀ (r : Json) (tmp : Ops.GenericOperationElem),
        Ops.decodeGenericOperationElem r = .ok tmp → Ops.registryTag tmp.kind = none →
        Ops.decodeOperationElem r = .ok (.generic tmp) ∧
          (Ops.OperationElem.generic tmp).kind = tmp.kind)
    ∧ (∀ fields : List (String × Json), fieldVal fields "kind" = none →
        Ops.decodeGenericOperationElem (.obj fields) = .ok ⟨""⟩ ∧
          Ops.registryTag "" = none)
    ∧ (∀ (raw : List Json) (prev : List (Option Ops.OperationElem)),
        (∀ r ∈ raw, isOkE (Ops.decodeOperationElem r) = true) →
        (Ops.OperationElements.unmarshalJSON (.arr raw) prev).1 = .ok ())
    ∧ (∀ (r : Json) (tmp : Ops.GenericBalanceUpdate),
        Ops.decodeGenericBalanceUpdate r = .ok tmp → Ops.buRegistryTag tmp.kind = none →
        Ops.decodeBalanceUpdateElem r = .ok (.generic tmp) ∧
          (Ops.BalanceUpdate.generic tmp).kind = tmp.kind)
    ∧ (∀ (raw : List Json) (prev : List (Option Ops.BalanceUpdate)),
        (∀ r ∈ raw, isOkE (Ops.decodeBalanceUpdateElem r) = true) →
        (Ops.BalanceUpdates.unmarshalJSON (.arr raw) prev).1 = .ok ()) := by
  refine ⟨?_, ?_, ?_, ?_, ?_⟩
  · intro r tmp h1 h2
    rw [decodeOperationElem_of_pre r tmp h1]
    exact ⟨opElemSwitch_fallback tmp r h2, rfl⟩
  · intro fields hk
    constructor
    · unfold Ops.decodeGenericOperationElem fieldDec
      simp [asObjFields, except_bind_ok, hk]
    · rfl
  · intro raw prev hall
    unfold Ops.OperationElements.unmarshalJSON
    simp only [asRawArray]
    rw [opElemsLoop_ok raw hall]
  · intro r tmp h1 h2
    rw [decodeBalanceUpdateElem_of_pre r tmp h1]
    exact ⟨buSwitch_fallback tmp r h2, rfl⟩
  · intro raw prev hall
    unfold Ops.BalanceUpdates.unmarshalJSON
    simp only [asRawArray]
    rw [buElemsLoop_ok raw hall]

/-- C1 counterexample: the claim quantifies over every variant family, but
    `BalanceUpdatesType.UnmarshalJSON` (`block.go`) fails the whole decode
    on the unregistered discriminator `"burn"` instead of retaining the
    element as a fallback. -/
theorem claim_C1_counterexample :
    (Block.BalanceUpdatesType.unmarshalJSON
        (.arr [.obj [("kind", .str "burn")]]) []).1 =
      .error "Unknown BalanceUpdates.Kind: burn" := rfl

/-- C1 witness: a concrete instantiation of the amended claim — an
    operation element with the unregistered discriminator `"burn"` decodes
    to the generic fallback and an array containing it decodes without
    error. -/
theorem claim_C1_witness :
    Ops.decodeOperationElem (.obj [("kind", .str "burn")]) =
      .ok (.generic ⟨"burn"⟩) ∧
    (Ops.OperationElements.unmarshalJSON
        (.arr [.obj [("kind", .str "burn")], .obj []]) []).1 = .ok () := by
  constructor
  · exact (claim_C1_amended.1 (.obj [("kind", .str "burn")]) ⟨"burn"⟩ rfl rfl).1
  · refine claim_C1_amended.2.2.1 [.obj [("kind", .str "burn")], .obj []] [] ?_
    intro r hr
    fin_cases hr <;> rfl

/-- C4: when every element of the input array bears a registered
    discriminator (and decodes into its registered type), the variant
    decoders of `operations.go` succeed and produce the destination slice
    `raw.map …` — same length, original order, position `i` holding exactly
    the full decode of input element `i` into the concrete type the registry
    assigns to that element's discriminator. -/
theorem claim_C4 :
    (∀ (raw : List Json) (prev : List (Option Ops.OperationElem)),
        (∀ r ∈ raw, Ops.opElemWellRegistered r = true) →
        Ops.OperationElements.unmarshalJSON (.arr raw) prev =
          (.ok (), raw.map (fun r => okValue (Ops.decodeOperationElem r)))
        ∧ (raw.map (fun r => okValue (Ops.decodeOperationElem r))).length = raw.length
        ∧ ∀ (i : Nat) (r : Json), raw[i]? = some r →
            ∃ (tmp : Ops.GenericOperationElem) (e : Ops.OperationElem),
              Ops.decodeGenericOperationElem r = .ok tmp ∧
              Ops.decodeOperationElem r = .ok e ∧
              (raw.map (fun r' => okValue (Ops.decodeOperationElem r')))[i]? =
                some (some e) ∧
              Ops.registryTag tmp.kind = some e.tag)
    ∧ (∀ (raw : List Json) (prev : List (Option Ops.BalanceUpdate)),
        (∀ r ∈ raw, Ops.buWellRegistered r = true) →
        Ops.BalanceUpdates.unmarshalJSON (.arr raw) prev =
          (.ok (), raw.map (fun r => okValue (Ops.decodeBalanceUpdateElem r)))
        ∧ ∀ (i : Nat) (r : Json), raw[i]? = some r →
            ∃ (tmp : Ops.GenericBalanceUpdate) (e : Ops.BalanceUpdate),
              Ops.decodeGenericBalanceUpdate r = .ok tmp ∧
              Ops.decodeBalanceUpdateElem r = .ok e ∧
              (raw.map (fun r' => okValue (Ops.decodeBalanceUpdateElem r')))[i]? =
                some (some e) ∧
              Ops.buRegistryTag tmp.kind = some e.tag) := by
  constructor
  · intro raw prev hall
    have hok : ∀ r ∈ raw, isOkE (Ops.decodeOperationElem r) = true := by
      intro r hr
      have h := hall r hr
      unfold Ops.opElemWellRegistered at h
      cases hg : Ops.decodeGenericOperationElem r with
      | error e => rw [hg] at h; simp at h
      | ok tmp => rw [hg] at h; rw [Bool.and_eq_true] at h; exact h.2
    refine ⟨?_, List.length_map .., ?_⟩
    · unfold Ops.OperationElements.unmarshalJSON
      simp only [asRawArray]
      rw [opElemsLoop_ok raw hok]
    · intro i r hir
      have hmem : r ∈ raw := List.getElem?_mem hir
      have h := hall r hmem
      unfold Ops.opElemWellRegistered at h
      cases hg : Ops.decodeGenericOperationElem r with
      | error e => rw [hg] at h; simp at h
      | ok tmp =>
          rw [hg] at h
          rw [Bool.and_eq_true] at h
          obtain ⟨hsome, hokr⟩ := h
          obtain ⟨t, htag⟩ := Option.isSome_iff_exists.mp hsome
          obtain ⟨e, he⟩ := isOkE_iff.mp hokr
          refine ⟨tmp, e, rfl, he, ?_, ?_⟩
          · rw [List.getElem?_map, hir]
            simp [okValue, he]
          · rw [htag]
            congr 1
            exact (opElemSwitch_tag tmp r e t htag
              (by rw [← decodeOperationElem_of_pre r tmp hg]; exact he)).symm
  · intro raw prev hall
    have hok : ∀ r ∈ raw, isOkE (Ops.decodeBalanceUpdateElem r) = true := by
      intro r hr
      have h := hall r hr
      unfold Ops.buWellRegistered at h
      cases hg : Ops.decodeGenericBalanceUpdate r with
      | error e => rw [hg] at h; simp at h
      | ok tmp => rw [hg] at h; rw [Bool.and_eq_true] at h; exact h.2
    refine ⟨?_, ?_⟩
    · unfold Ops.BalanceUpdates.unmarshalJSON
      simp only [asRawArray]
      rw [buElemsLoop_ok raw hok]
    · intro i r hir
      have hmem : r ∈ raw := List.getElem?_mem hir
      have h := hall r hmem
      unfold Ops.buWellRegistered at h
      cases hg : Ops.decodeGenericBalanceUpdate r with
      | error e => rw [hg] at h; simp at h
      | ok tmp =>
          rw [hg] at h
          rw [Bool.and_eq_true] at h
          obtain ⟨hsome, hokr⟩ := h
          obtain ⟨t, htag⟩ := Option.isSome_iff_exists.mp hsome
          obtain ⟨e, he⟩ := isOkE_iff.mp hokr
          refine ⟨tmp, e, rfl, he, ?_, ?_⟩
          · rw [List.getElem?_map, hir]
            simp [okValue, he]
          · rw [htag]
            congr 1
            exact (buSwitch_tag tmp r e t htag
              (by rw [← decodeBalanceUpdateElem_of_pre r tmp hg]; exact he)).symm

/-- C4 witness: an array with one endorsement and one account activation
    decodes to the corresponding concrete records, in order. -/
theorem claim_C4_witness :
    Ops.OperationElements.unmarshalJSON
        (.arr [.obj [("kind", .str "endorsement"), ("level", .num 7)],
               .obj [("kind", .str "activate_account"), ("pkh", .str "tz1x")]]) [] =
      (.ok (), [some (.endorsement ⟨⟨"endorsement"⟩, 7, ⟨[], "", []⟩⟩),
                some (.activateAccount ⟨⟨"activate_account"⟩, "tz1x", "", ⟨[]⟩⟩)]) := by
  have h := (claim_C4.1
      [.obj [("kind", .str "endorsement"), ("level", .num 7)],
       .obj [("kind", .str "activate_account"), ("pkh", .str "tz1x")]] []
      (by intro r hr; fin_cases hr <;> rfl)).1
  rw [h]
  rfl

theorem streamLoop_exhausted (k : Nat) :
    ∀ (vs : List Json) (n : Nat), n + vs.length ≤ k →
      streamLoop (some k) none vs n = (none, vs)
  | [], n, h => rfl
  | v :: vs, n, h => by
      have hn : ¬ k ≤ n := by simp at h; omega
      have ih := streamLoop_exhausted k vs (n + 1) (by simp at h; omega)
      simp [streamLoop, ctxDone, hn, ih]

/-- C8 (amended): the operation-element variant decoder is not atomic on
    error: when the decode of the element following the prefix `raw1`
    fails, the destination has already been replaced by a slice of the
    input's length (regardless of its previous contents) in which every
    position before the failing index holds its decoded element and every
    position strictly after it is nil; the failing position itself is nil
    when the discriminator pre-decode failed, and holds the freshly
    allocated non-nil value of the registered concrete type (bearing the
    pre-decoded discriminator) when the full decode into that type failed;
    the element's error is returned. -/
theorem claim_C8 (raw1 raw2 : List Json) (r : Json) (e : String)
    (prev : List (Option Ops.OperationElem))
    (h1 : ∀ r' ∈ raw1, isOkE (Ops.decodeOperationElem r') = true) :
    (Ops.decodeGenericOperationElem r = .error e →
        Ops.OperationElements.unmarshalJSON (.arr (raw1 ++ r :: raw2)) prev =
          (.error e, raw1.map (fun r' => okValue (Ops.decodeOperationElem r')) ++
            none :: List.replicate raw2.length none))
    ∧ (∀ (tmp : Ops.GenericOperationElem) (t : Ops.OpTag),
        Ops.decodeGenericOperationElem r = .ok tmp →
        Ops.registryTag tmp.kind = some t →
        Ops.opElemSwitch tmp r = .error e →
        Ops.OperationElements.unmarshalJSON (.arr (raw1 ++ r :: raw2)) prev =
          (.error e, raw1.map (fun r' => okValue (Ops.decodeOperationElem r')) ++
            some (Ops.allocForTag t tmp) :: List.replicate raw2.length none) ∧
        (Ops.allocForTag t tmp).tag = t ∧
        (Ops.allocForTag t tmp).kind = tmp.kind)
    ∧ (∀ slot : Option Ops.OperationElem,
        (raw1.map (fun r' => okValue (Ops.decodeOperationElem r')) ++
            slot :: List.replicate raw2.length none).length =
          (raw1 ++ r :: raw2).length
        ∧ (raw1.map (fun r' => okValue (Ops.decodeOperationElem r')) ++
            slot :: List.replicate raw2.length none)[raw1.length]? = some slot
        ∧ (∀ (i : Nat) (r' : Json), raw1[i]? = some r' →
            ∃ el, Ops.decodeOperationElem r' = .ok el ∧
              (raw1.map (fun r'' => okValue (Ops.decodeOperationElem r'')) ++
                slot :: List.replicate raw2.length none)[i]? = some (some el))
        ∧ (∀ i : Nat, raw1.length < i → i < (raw1 ++ r :: raw2).length →
            (raw1.map (fun r'' => okValue (Ops.decodeOperationElem r'')) ++
              slot :: List.replicate raw2.length none)[i]? = some none)) := by
  refine ⟨?_, ?_, ?_⟩
  · intro hg
    unfold Ops.OperationElements.unmarshalJSON
    simp only [asRawArray]
    rw [opElemsLoop_error_pre raw1 r raw2 e h1 hg]
  · intro tmp t hg hrt hsw
    refine ⟨?_, allocForTag_tag t tmp, allocForTag_kind t tmp⟩
    unfold Ops.OperationElements.unmarshalJSON
    simp only [asRawArray]
    rw [opElemsLoop_error_full raw1 r raw2 e tmp t h1 hg hrt hsw]
  · intro slot
    refine ⟨?_, ?_, ?_, ?_⟩
    · simp
    · rw [List.getElem?_append_right (by simp)]
      simp
    · intro i r' hir
      have hmem : r' ∈ raw1 := List.getElem?_mem hir
      obtain ⟨el, hel⟩ := isOkE_iff.mp (h1 r' hmem)
      have hi : i < raw1.length := (List.getElem?_eq_some_iff.mp hir).1
      refine ⟨el, hel, ?_⟩
      rw [List.getElem?_append_left (by simpa using hi), List.getElem?_map, hir]
      simp [okValue, hel]
    · intro i hgt hlt
      rw [List.getElem?_append_right (by simp only [List.length_map]; omega)]
      simp only [List.length_map]
      have hidx : i - raw1.length = (i - raw1.length - 1) + 1 := by omega
      rw [hidx]
      simp only [List.getElem?_cons_succ]
      rw [List.getElem?_replicate]
      have : i - raw1.length - 1 < raw2.length := by
        simp only [List.length_append, List.length_cons] at hlt
        omega
      simp [this]

/-- C8 counterexample: the claim as stated says every position from the
    failing index onward is nil, but a full-decode failure at a registered
    kind (an endorsement whose `level` is a string) leaves the freshly
    allocated endorsement value — non-nil — in the failing slot, because
    the source assigns `(*e)[i] = &EndorsementOperationElem{}` before the
    failing unmarshal. -/
theorem claim_C8_counterexample :
    (Ops.OperationElements.unmarshalJSON
        (.arr [.obj [("kind", .str "endorsement"), ("level", .str "x")]]) []).1 =
      .error "json: cannot unmarshal value into Go integer value" ∧
    (Ops.OperationElements.unmarshalJSON
        (.arr [.obj [("kind", .str "endorsement"), ("level", .str "x")]]) []).2 =
      [some (.endorsement ⟨⟨"endorsement"⟩, 0, ⟨[], "", []⟩⟩)] :=
  ⟨rfl, rfl⟩

/-- C8 witness: both failure modes at concrete inputs.  A fallback element
    followed by a failing full decode (endorsement with a string `level`)
    leaves the decoded prefix, the non-nil fresh allocation at the failing
    index and nil after it; a fallback element followed by a failing
    pre-decode (a number) leaves nil at the failing index. -/
theorem claim_C8_witness :
    Ops.OperationElements.unmarshalJSON
        (.arr [.obj [("kind", .str "burn")],
               .obj [("kind", .str "endorsement"), ("level", .str "x")], .num 1])
        [some (.generic ⟨"stale"⟩)] =
      (.error "json: cannot unmarshal value into Go integer value",
        [some (.generic ⟨"burn"⟩),
         some (.endorsement ⟨⟨"endorsement"⟩, 0, ⟨[], "", []⟩⟩), none]) ∧
    Ops.OperationElements.unmarshalJSON
        (.arr [.obj [("kind", .str "burn")], .num 5]) [] =
      (.error "json: cannot unmarshal value into Go struct",
        [some (.generic ⟨"burn"⟩), none]) := by
  constructor
  · have h := ((claim_C8 [.obj [("kind", .str "burn")]] [.num 1]
        (.obj [("kind", .str "endorsement"), ("level", .str "x")])
        "json: cannot unmarshal value into Go integer value"
        [some (.generic ⟨"stale"⟩)]
        (by intro r' hr'; fin_cases hr'; rfl)).2.1 ⟨"endorsement"⟩ .endorsement
        rfl rfl rfl).1
    simp only [List.singleton_append] at h
    rw [h]
    rfl
  · have h := (claim_C8 [.obj [("kind", .str "burn")]] [] (.num 5)
        "json: cannot unmarshal value into Go struct" []
        (by intro r' hr'; fin_cases hr'; rfl)).1 rfl
    simp only [List.singleton_append] at h
    rw [h]
    rfl

/-- C3 (amended): a streaming dispatch over a finite concatenation of
    well-formed JSON values delivers each value exactly once, in body
    order, and returns normally at end-of-body; if the cancellation signal
    fires after `k ≥ 1` delivered elements while further elements remain,
    no further element is delivered and the dispatcher returns the
    cancellation outcome (not a decode error); if the signal fires only
    once the body is exhausted, the dispatcher has already delivered every
    element and returns normally. -/
theorem claim_C3_amended :
    (∀ vs : List Json,
        handleNormalResponse (.chan none) ⟨vs, none⟩ = ⟨none, vs, none⟩)
    ∧ (∀ (vs : List Json) (k : Nat), 1 ≤ k → k < vs.length →
        handleNormalResponse (.chan (some k)) ⟨vs, none⟩ =
          ⟨some .canceled, vs.take k, none⟩)
    ∧ (∀ (vs : List Json) (k : Nat), vs.length ≤ k →
        handleNormalResponse (.chan (some k)) ⟨vs, none⟩ = ⟨none, vs, none⟩) := by
  refine ⟨?_, ?_, ?_⟩
  · intro vs
    show (⟨(streamLoop none none vs 0).1, (streamLoop none none vs 0).2, none⟩ :
        DispatchResult) = ⟨none, vs, none⟩
    rw [streamLoop_no_cancel none vs 0]
  · intro vs k h1 h2
    show (⟨(streamLoop (some k) none vs 0).1, (streamLoop (some k) none vs 0).2, none⟩ :
        DispatchResult) = ⟨some .canceled, vs.take k, none⟩
    rw [streamLoop_cancel k vs none 0 (Nat.zero_le k) (by simpa using h2)]
    simp
  · intro vs k h
    show (⟨(streamLoop (some k) none vs 0).1, (streamLoop (some k) none vs 0).2, none⟩ :
        DispatchResult) = ⟨none, vs, none⟩
    rw [streamLoop_exhausted k vs 0 (by simpa using h)]

/-- C3 witness: three values with no cancellation are all delivered in
    order; cancellation after the first of three delivers only the first
    and returns the cancellation outcome. -/
theorem claim_C3_witness :
    handleNormalResponse (.chan none) ⟨[.num 1, .num 2, .num 3], none⟩ =
      ⟨none, [.num 1, .num 2, .num 3], none⟩ ∧
    handleNormalResponse (.chan (some 1)) ⟨[.num 1, .num 2, .num 3], none⟩ =
      ⟨some .canceled, [.num 1], none⟩ := by
  refine ⟨claim_C3_amended.1 [.num 1, .num 2, .num 3], ?_⟩
  have h := claim_C3_amended.2.1 [.num 1, .num 2, .num 3] 1 (by decide) (by decide)
  simpa using h

/-- C3 counterexample: the claim as stated promises a cancellation outcome
    whenever the signal fires after some delivered element, but when the
    signal fires after the last element of the body the loop reaches
    end-of-body first and returns normally. -/
theorem claim_C3_counterexample :
    handleNormalResponse (.chan (some 1)) ⟨[.null], none⟩ = ⟨none, [.null], none⟩ ∧
    (handleNormalResponse (.chan (some 1)) ⟨[.null], none⟩).err ≠ some .canceled := by
  refine ⟨rfl, ?_⟩
  intro h
  exact Option.noConfusion h

/-- C7 (amended): in single-value mode the dispatcher decodes exactly one
    JSON value from the body into the destination; an empty body is an
    error (`io.EOF`, or the syntax error when the body is unparseable), but
    data trailing the first value is silently ignored, not an error. -/
theorem claim_C7_amended :
    (handleNormalResponse .single ⟨[], none⟩ =
        ⟨some (.jsonDecode .eof), [], none⟩)
    ∧ (∀ g : String, handleNormalResponse .single ⟨[], some g⟩ =
        ⟨some (.jsonDecode (.syntaxError g)), [], none⟩)
    ∧ (∀ (val : Json) (vs : List Json) (g : Option String),
        handleNormalResponse .single ⟨val :: vs, g⟩ = ⟨none, [], some val⟩) := by
  refine ⟨rfl, fun g => rfl, fun val vs g => rfl⟩

/-- C7 counterexample: a body holding two JSON values decodes its first
    value with no error, though the claim says trailing data after the
    first value is a decode error. -/
theorem claim_C7_counterexample :
    (handleNormalResponse .single ⟨[.null, .null], none⟩).err = none ∧
    (handleNormalResponse .single ⟨[.null, .null], none⟩).written = some .null := by
  exact ⟨rfl, rfl⟩

/-- C9: a 204 No Content response makes `Do` return nil immediately for
    every destination — nothing is decoded, no element is delivered and the
    single-value slot is left untouched. -/
theorem claim_C9 (status ct : String) (body : RawBody) (v : Option Dest) :
    RPCClient.Do ⟨204, status, ct, body⟩ v = ⟨none, [], none⟩ := rfl

/-- C2: for a 5xx response whose `Content-Type` indicates JSON, the
    classifier produces exactly one of three mutually exclusive outcomes:
    a body that does not decode as the protocol-error list yields the
    decode-error condition whose message embeds the underlying parse
    failure text; a body decoding to the empty list yields the distinct
    empty-protocol-error condition (a different message, not an RPC error
    and not success); a body decoding to a non-empty list yields the RPC
    protocol error carrying the full list plus the original status and
    body. -/
theorem claim_C2 (resp : Response) (v : Option Dest)
    (h5 : resp.statusCode / 100 = 5)
    (hct : strContains resp.contentType "application/json" = true) :
    (∀ e : String, unmarshalBodyErrors resp.body = .error e →
        RPCClient.Do resp v =
          ⟨some (.plain ⟨resp.status, resp.statusCode, resp.body⟩
            ("tezos: error decoding RPC error: " ++ e)), [], none⟩ ∧
        ∃ pre, "tezos: error decoding RPC error: " ++ e = pre ++ e)
    ∧ (unmarshalBodyErrors resp.body = .ok [] →
        RPCClient.Do resp v =
          ⟨some (.plain ⟨resp.status, resp.statusCode, resp.body⟩
            "tezos: empty error response"), [], none⟩ ∧
        ∀ e : String,
          "tezos: empty error response" ≠ "tezos: error decoding RPC error: " ++ e)
    ∧ (∀ errs : Errors, unmarshalBodyErrors resp.body = .ok errs → errs ≠ [] →
        RPCClient.Do resp v =
          ⟨some (.rpc ⟨resp.status, resp.statusCode, resp.body⟩ errs), [], none⟩) := by
  have hne204 : ¬ resp.statusCode = 204 := by
    intro hh
    rw [hh] at h5
    exact absurd h5 (by decide)
  have hne2 : ¬ resp.statusCode / 100 = 2 := by omega
  have hcond : (resp.statusCode / 100 != 5 ||
      !strContains resp.contentType "application/json") = false := by
    rw [h5, hct]
    rfl
  unfold RPCClient.Do
  rw [if_neg hne204, if_neg hne2, hcond]
  simp only [Bool.false_eq_true, if_false]
  refine ⟨?_, ?_, ?_⟩
  · intro e he
    rw [he]
    exact ⟨rfl, "tezos: error decoding RPC error: ", rfl⟩
  · intro he
    rw [he]
    refine ⟨rfl, ?_⟩
    intro e hcontra
    have hl := congrArg String.length hcontra
    rw [String.length_append] at hl
    have l1 : ("tezos: empty error response").length = 27 := rfl
    have l2 : ("tezos: error decoding RPC error: ").length = 33 := rfl
    omega
  · intro errs he hne
    rw [he]
    cases errs with
    | nil => exact absurd rfl hne
    | cons a as => rfl

/-- C2 witness: the spec's example — a 500 response with JSON content type
    and body `[{"kind":"permanent","id":"x.y.z"}]` yields the RPC protocol
    error whose single entry has kind `"permanent"` and id `"x.y.z"`. -/
theorem claim_C2_witness :
    RPCClient.Do
        ⟨500, "500 Internal Server Error", "application/json",
          ⟨[.arr [.obj [("kind", .str "permanent"), ("id", .str "x.y.z")]]], none⟩⟩ none =
      ⟨some (.rpc
          ⟨"500 Internal Server Error", 500,
            ⟨[.arr [.obj [("kind", .str "permanent"), ("id", .str "x.y.z")]]], none⟩⟩
          [⟨"permanent", "x.y.z"⟩]), [], none⟩ := by
  exact (claim_C2
      ⟨500, "500 Internal Server Error", "application/json",
        ⟨[.arr [.obj [("kind", .str "permanent"), ("id", .str "x.y.z")]]], none⟩⟩ none
      (by decide) (by decide)).2.2 [⟨"permanent", "x.y.z"⟩] rfl (by simp)

/-- C6: every non-2xx response that is not a 5xx with a JSON content type —
    4xx, 3xx and other classes, and 5xx without JSON content type — yields
    the HTTP status error carrying the status code, status text and the raw
    body verbatim, for every destination. -/
theorem claim_C6 (resp : Response) (v : Option Dest)
    (h2 : resp.statusCode / 100 ≠ 2)
    (h : resp.statusCode / 100 ≠ 5 ∨
      strContains resp.contentType "application/json" = false) :
    RPCClient.Do resp v =
      ⟨some (.http ⟨resp.status, resp.statusCode, resp.body⟩), [], none⟩ := by
  have hne204 : ¬ resp.statusCode = 204 := by
    intro hh
    apply h2
    rw [hh]
  have hcond : (resp.statusCode / 100 != 5 ||
      !strContains resp.contentType "application/json") = true := by
    rcases h with h | h
    · simp [bne_iff_ne, h]
    · simp [h]
  unfold RPCClient.Do
  rw [if_neg hne204, if_neg h2, if_pos hcond]

/-- C6 witness: a 404 with a plain-text body yields the HTTP status error
    with code 404 and that body. -/
theorem claim_C6_witness :
    RPCClient.Do ⟨404, "404 Not Found", "text/plain", ⟨[], some "nope"⟩⟩ (some .single) =
      ⟨some (.http ⟨"404 Not Found", 404, ⟨[], some "nope"⟩⟩), [], none⟩ := by
  exact claim_C6 ⟨404, "404 Not Found", "text/plain", ⟨[], some "nope"⟩⟩ (some .single)
    (by decide) (Or.inl (by decide))

end Tezos
